import Mathlib

/-!
Verification development for the walksnail-osd-tool backend.

The Rust source is shallowly embedded: machine integers become `Nat` (with
explicit bounds where the source checks them), `f32`/`f64` values that the
source only parses from finite decimal strings, stores and displays are
modelled by `Dec10`, the exact decimal value in normalized
`mantissa * 10 ^ exponent` form; fallible operations return
`Option`/`Except`.
External library behaviour (Rust `core` numeric `FromStr`, the `regex` crate's
leftmost-match semantics for the two patterns the source uses, the
`parse_display` derived template parser, the `image` crate's `overlay`) is
modelled explicitly; each such definition carries a comment saying what it
models.
-/

namespace Walksnail

/-- ASCII decimal digit test (models Rust `char::is_ascii_digit`). -/
def isDigitChar (c : Char) : Bool := '0' ≤ c && c ≤ '9'

/-- Numeric value of an ASCII digit. -/
def digitVal (c : Char) : Nat := c.toNat - '0'.toNat

/-- Accumulate decimal digits; fails on the first non-digit character. -/
def digitsAcc : List Char → Nat → Option Nat
  | [], acc => some acc
  | c :: cs, acc => if isDigitChar c then digitsAcc cs (acc * 10 + digitVal c) else none

/-- Value of a (known-good) digit list, most significant first. -/
def digitsToNat (cs : List Char) : Nat := cs.foldl (fun acc c => acc * 10 + digitVal c) 0

/-- Strip factors of 10 from a mantissa, shifting them into the exponent;
`fuel` (the mantissa's absolute value) bounds the loop. -/
def strip10 : Nat → Int → Int → Int × Int
  | 0, m, e => (m, e)
  | fuel + 1, m, e =>
    if m % 10 = 0 ∧ m ≠ 0 then strip10 fuel (m / 10) (e + 1) else (m, e)

/-- The exact value of a finite decimal numeral, `m * 10 ^ e` with `m` not
divisible by 10 (and `e = 0` when `m = 0`), so that structural equality is
numeric equality.  This models the `f32`/`f64` values the source parses from
decimal strings: the code only stores and displays them (it never does
arithmetic or cross-representation comparisons on parsed floats), so the
binary `f32` rounding of Rust's parser is not modelled. -/
structure Dec10 where
  m : Int
  e : Int
deriving DecidableEq, Repr

/-- Normalized constructor for `Dec10`. -/
def Dec10.mk10 (m e : Int) : Dec10 :=
  if m = 0 then ⟨0, 0⟩
  else
    let p := strip10 m.natAbs m e
    ⟨p.1, p.2⟩

def Dec10.ofNat (n : Nat) : Dec10 := Dec10.mk10 n 0

def Dec10.mul (a b : Dec10) : Dec10 := Dec10.mk10 (a.m * b.m) (a.e + b.e)

/-- `x / 100.0` (used for the scale percentage). -/
def Dec10.div100 (a : Dec10) : Dec10 := Dec10.mk10 a.m (a.e - 2)

/-- The rational value a `Dec10` denotes (for specification reading only). -/
def Dec10.toRat (d : Dec10) : ℚ := (d.m : ℚ) * 10 ^ d.e

/-- Truncation toward zero (Rust float-to-integer `as`, before
saturation). -/
def Dec10.trunc (d : Dec10) : Int :=
  if 0 ≤ d.e then d.m * ((10 ^ d.e.toNat : Nat) : Int)
  else Int.tdiv d.m ((10 ^ (-d.e).toNat : Nat) : Int)

/-- `f32::round`: round half away from zero. -/
def Dec10.round (d : Dec10) : Int :=
  if 0 ≤ d.e then d.m * ((10 ^ d.e.toNat : Nat) : Int)
  else
    let h : Int := ((10 ^ (-d.e).toNat : Nat) : Int)
    if 0 ≤ d.m then (2 * d.m + h) / (2 * h)
    else -((2 * -d.m + h) / (2 * h))

/-- Models Rust `str::parse::<uN>()` (`u8`/`u16`/`u32` via `bound`): an
optional leading `+`, then one or more ASCII digits, no other characters;
values above `bound` are an overflow error, hence `none`. -/
def parseUnsigned (bound : Nat) (s : String) : Option Nat :=
  let cs : List Char :=
    match s.data with
    | '+' :: rest => rest
    | cs => cs
  match cs with
  | [] => none
  | _ => (digitsAcc cs 0).filter (· ≤ bound)

def parseU8 (s : String) : Option Nat := parseUnsigned 255 s

def parseU16 (s : String) : Option Nat := parseUnsigned 65535 s

def parseU32 (s : String) : Option Nat := parseUnsigned (2 ^ 32 - 1) s

/-- Models Rust `str::parse::<f32>()` restricted to finite decimal notation
(optional sign, digits with an optional fractional part, optional decimal
exponent); the value is kept as the exact decimal it denotes (see `Dec10`).
The `inf`/`NaN` spellings accepted by Rust are not representable here and are
mapped to `none`; no claim exercises them. -/
def parseF32 (s : String) : Option Dec10 :=
  let (neg, cs0) :
      Bool × List Char :=
    match s.data with
    | '-' :: r => (true, r)
    | '+' :: r => (false, r)
    | r => (false, r)
  let intPart := cs0.takeWhile isDigitChar
  let cs1 := cs0.dropWhile isDigitChar
  let (fracPart, cs2) :
      List Char × List Char :=
    match cs1 with
    | '.' :: r => (r.takeWhile isDigitChar, r.dropWhile isDigitChar)
    | _ => ([], cs1)
  if intPart.isEmpty && fracPart.isEmpty then none
  else
    let mant : Int := (digitsToNat intPart * 10 ^ fracPart.length + digitsToNat fracPart : ℕ)
    let mantS : Int := if neg then -mant else mant
    let e0 : Int := -(fracPart.length : Int)
    match cs2 with
    | [] => some (Dec10.mk10 mantS e0)
    | 'e' :: r | 'E' :: r =>
      let (eneg, r2) :
          Bool × List Char :=
        match r with
        | '-' :: t => (true, t)
        | '+' :: t => (false, t)
        | t => (false, t)
      let ed := r2.takeWhile isDigitChar
      let r3 := r2.dropWhile isDigitChar
      if ed.isEmpty then none
      else if r3.isEmpty then
        let ex : ℤ := if eneg then -(digitsToNat ed : ℤ) else (digitsToNat ed : ℤ)
        some (Dec10.mk10 mantS (e0 + ex))
      else none
    | _ => none

/-- The stripping loop of Rust `str::trim_end_matches` on reversed character
lists: repeatedly strip the reversed pattern `pr` from the front of the
reversed string.  `fuel` only bounds the recursion depth, which cannot exceed
the string length (each successful strip removes `pr.length ≥ 1` characters);
`stripRevAllF_stable` below makes this precise. -/
def stripRevAllF : Nat → List Char → List Char → List Char
  | 0, _, r => r
  | fuel + 1, pr, r =>
    if pr ≠ [] ∧ pr.isPrefixOf r then
      stripRevAllF fuel pr (r.drop pr.length)
    else r

/-- The stripping loop with always-sufficient fuel. -/
def stripRevAll (pr r : List Char) : List Char := stripRevAllF (r.length + 1) pr r

/-- Models Rust `str::trim_end_matches(pat)`: remove every consecutive
trailing occurrence of `pat`. -/
def trimEndMatches (s pat : String) : String :=
  String.mk ((stripRevAll pat.data.reverse s.data.reverse).reverse)

/-- Models the regex crate's `\w` on the ASCII range (the source's inputs are
ASCII telemetry lines). -/
def isWordChar (c : Char) : Bool :=
  ('a' ≤ c && c ≤ 'z') || ('A' ≤ c && c ≤ 'Z') || isDigitChar c || c = '_'

/-- Models the regex crate's `\s` on the ASCII range. -/
def isSpaceChar (c : Char) : Bool :=
  c = ' ' || c = '\t' || c = '\n' || c = '\x0b' || c = '\x0c' || c = '\r'

/-- A character admissible in the value group `[^:\s]+`. -/
def isValueChar (c : Char) : Bool := !isSpaceChar c && c != ':'

/-- Models `Regex::new(r"(\w+):\s*([^:\s]+)").captures_iter(s)` from
`SrtFrameData::from_str`: repeatedly find, leftmost-first, a maximal word run
followed by a colon, optional whitespace and a maximal non-empty
colon-free/whitespace-free value; scanning resumes after each match (after a
failed start position it advances one character).  Greedy/lazy backtracking
cannot produce any other match for this pattern because `\w`, `:` and `\s`
are pairwise disjoint character classes.  This step function attempts one
anchored match at the start of `l`: on success it returns the two captures
and the continuation (the input right after the match). -/
def scanStep? (l : List Char) : Option ((String × String) × List Char) :=
  let key := l.takeWhile isWordChar
  let afterKey := l.dropWhile isWordChar
  if key.isEmpty then none
  else
    match afterKey with
    | ':' :: r2 =>
      let r3 := r2.dropWhile isSpaceChar
      let v := r3.takeWhile isValueChar
      if v.isEmpty then none
      else some ((String.mk key, String.mk v), r3.dropWhile isValueChar)
    | _ => none

def scanCapturesF : Nat → List Char → List (String × String)
  | 0, _ => []
  | _ + 1, [] => []
  | fuel + 1, c :: rest =>
    match scanStep? (c :: rest) with
    | some (kv, cont) => kv :: scanCapturesF fuel cont
    | none => scanCapturesF fuel rest

/-- The capture scan with always-sufficient fuel: every recursive call of
`scanCapturesF` strictly decreases the list length (it always consumes at
least the head character), so recursion depth is at most the length
(`scanCapturesF_stable` below makes this precise). -/
def scanCaptures (l : List Char) : List (String × String) :=
  scanCapturesF (l.length + 1) l

/-- The generic telemetry record (`SrtFrameData` in `srt/frame.rs`); every
field is optional ("absent in this line's schema").  `u8`/`u32` fields are
`Nat`, `f32` fields are modelled as `Dec10`. -/
structure SrtFrameData where
  signal : Option Nat
  channel : Option String
  flight_time : Option Nat
  sky_bat : Option Dec10
  ground_bat : Option Dec10
  latency : Option Nat
  bitrate_mbps : Option Dec10
  distance : Option Nat
  hz : Option Nat
  sp : Option Nat
  gp : Option Nat
  air_temp : Option Nat
  gnd_temp : Option Nat
  sty_mode : Option Nat
deriving DecidableEq, Repr

/-- The all-absent record (the parser's initial state). -/
def SrtFrameData.empty : SrtFrameData :=
  ⟨none, none, none, none, none, none, none, none, none, none, none, none, none, none⟩

/-- One `match key` arm of the capture loop in `SrtFrameData::from_str`;
recognized keys overwrite their field with `parse().ok()` (so an unparsable
value stores `none`), unrecognized keys are ignored. -/
def applyCapture (d : SrtFrameData) (kv : String × String) : SrtFrameData :=
  match kv.1 with
  | "Signal" | "MCS" => { d with signal := parseU8 kv.2 }
  | "CH" => { d with channel := some kv.2 }
  | "FlightTime" => { d with flight_time := parseU32 kv.2 }
  | "SBat" => { d with sky_bat := parseF32 (trimEndMatches kv.2 "V") }
  | "GBat" => { d with ground_bat := parseF32 (trimEndMatches kv.2 "V") }
  | "Delay" => { d with latency := parseU32 (trimEndMatches kv.2 "ms") }
  | "Bitrate" => { d with bitrate_mbps := parseF32 (trimEndMatches kv.2 "Mbps") }
  | "Distance" => { d with distance := parseU32 (trimEndMatches kv.2 "m") }
  | "AirTemp" => { d with air_temp := parseU32 kv.2 }
  | "GndTemp" => { d with gnd_temp := parseU32 kv.2 }
  | "STYMode" => { d with sty_mode := parseU32 kv.2 }
  | _ => d

/-- `SrtFrameData::from_str` (generic schema): scan all `key:value` captures
and fold them into a record; the function's declared error type is `String`
but no code path constructs an error. -/
def SrtFrameData.fromStr (s : String) : Except String SrtFrameData :=
  Except.ok ((scanCaptures s.data).foldl applyCapture SrtFrameData.empty)

/-- `line.parse::<SrtFrameData>().ok()`. -/
def SrtFrameData.parseOpt (s : String) : Option SrtFrameData :=
  (SrtFrameData.fromStr s).toOption

/-- One segment of a `parse_display` `#[display("...")]` template: a literal
run, or a `{field}` placeholder (whose derived regex is a lazy `.*?`). -/
inductive Seg where
  | lit : List Char → Seg
  | cap : Seg

/-- Strip an expected literal from the front of the input. -/
def stripLit : List Char → List Char → Option (List Char)
  | [], s => some s
  | _ :: _, [] => none
  | a :: l, b :: s => if a = b then stripLit l s else none

mutual

/-- Models the anchored regex that `parse_display` derives from a template:
literals must match exactly and each placeholder is a lazy `.*?` group, so
backtracking prefers the shortest capture for the leftmost group first, and
the whole input must be consumed.  `fuel` only bounds the recursion depth so
the definition is structural: every recursive call strictly decreases
`2 * segs.length + s.length + 1` (stripping a literal or entering a capture
consumes a segment; growing a capture consumes a character), so with the fuel
chosen in `matchSegs` the `0` branch is unreachable
(`matchSegsFuel_stable` below makes this precise). -/
def matchSegsF : Nat → List Seg → List Char → Option (List (List Char))
  | 0, _, _ => none
  | _ + 1, [], [] => some []
  | _ + 1, [], _ :: _ => none
  | fuel + 1, .lit l :: rest, s =>
    match stripLit l s with
    | some s2 => matchSegsF fuel rest s2
    | none => none
  | fuel + 1, .cap :: rest, s => capFromF fuel rest [] s

/-- Lazy capture: try the empty capture first, then grow it one character at
a time (`acc` holds the reversed capture so far). -/
def capFromF : Nat → List Seg → List Char → List Char → Option (List (List Char))
  | 0, _, _, _ => none
  | fuel + 1, rest, acc, s =>
    match matchSegsF fuel rest s with
    | some cs => some (acc.reverse :: cs)
    | none =>
      match s with
      | [] => none
      | c :: s2 => capFromF fuel rest (c :: acc) s2

end

/-- The depth bound justifying the fuel in `matchSegs`. -/
def segsFuel (segs : List Seg) (s : List Char) : Nat :=
  2 * segs.length + s.length + 1

/-- The anchored lazy template match with always-sufficient fuel. -/
def matchSegs (segs : List Seg) (s : List Char) : Option (List (List Char)) :=
  matchSegsF (segsFuel segs s) segs s

/-- Parse a whole capture list against expected field parsers, `parse_display`
style: the regex match is performed once, then every capture is fed to its
field type's `FromStr`; any failure fails the whole parse. -/
def matchTemplate (segs : List Seg) (s : String) : Option (List String) :=
  (matchSegs segs s.data).map (·.map String.mk)

/-- The extended fixed (Ascent) schema record, `AscentSrtFrameData` in
`srt/frame.rs`. -/
structure AscentSrtFrameData where
  signal : Nat
  channel : String
  hz : Nat
  flight_time : Nat
  sp : Nat
  gp : Nat
  sky_bat : Dec10
  ground_bat : Dec10
  latency : Nat
  bitrate_mbps : Dec10
  distance : Nat
deriving DecidableEq, Repr

/-- The `#[display(...)]` template of `AscentSrtFrameData`, split into
literal/placeholder segments. -/
def ascentSegs : List Seg :=
  [.lit "Signal:".data, .cap, .lit " CH:".data, .cap, .lit " Hz:".data, .cap,
   .lit " FlightTime:".data, .cap, .lit " Sp=".data, .cap, .lit " Gp=".data, .cap,
   .lit " SBat:".data, .cap, .lit "V GBat:".data, .cap, .lit "V Delay:".data, .cap,
   .lit "ms Bitrate:".data, .cap, .lit "Mbps Distance:".data, .cap, .lit "m".data]

/-- `line.parse::<AscentSrtFrameData>().ok()`: the derived template parser. -/
def AscentSrtFrameData.parse (s : String) : Option AscentSrtFrameData :=
  match matchTemplate ascentSegs s with
  | some [c1, c2, c3, c4, c5, c6, c7, c8, c9, c10, c11] => do
    let signal ← parseU8 c1
    let hz ← parseU32 c3
    let flight_time ← parseU32 c4
    let sp ← parseU8 c5
    let gp ← parseU8 c6
    let sky_bat ← parseF32 c7
    let ground_bat ← parseF32 c8
    let latency ← parseU32 c9
    let bitrate_mbps ← parseF32 c10
    let distance ← parseU32 c11
    pure ⟨signal, c2, hz, flight_time, sp, gp, sky_bat, ground_bat, latency,
      bitrate_mbps, distance⟩
  | _ => none

/-- `impl From<AscentSrtFrameData> for SrtFrameData`: every shared field maps
one-to-one, `hz`/`sp`/`gp` become populated, and the fields the Ascent schema
does not carry (`air_temp`, `gnd_temp`, `sty_mode`) stay absent. -/
def AscentSrtFrameData.toSrtFrameData (a : AscentSrtFrameData) : SrtFrameData :=
  { signal := some a.signal
    channel := some a.channel
    flight_time := some a.flight_time
    sky_bat := some a.sky_bat
    ground_bat := some a.ground_bat
    latency := some a.latency
    bitrate_mbps := some a.bitrate_mbps
    distance := some a.distance
    hz := some a.hz
    sp := some a.sp
    gp := some a.gp
    air_temp := none
    gnd_temp := none
    sty_mode := none }

/-- The debug schema record, `SrtDebugFrameData` in `srt/frame.rs` (fields in
source order; `f32` fields as `Dec10`). -/
structure SrtDebugFrameData where
  signal : Nat
  channel : Nat
  latency : Nat
  sp1 : Nat
  sp2 : Nat
  sp3 : Nat
  sp4 : Nat
  gp1 : Nat
  gp2 : Nat
  gp3 : Nat
  gp4 : Nat
  gtp : Nat
  gtp0 : Nat
  stp : Nat
  stp0 : Nat
  gsnr : Dec10
  ssnr : Dec10
  gtemp : Dec10
  stemp : Dec10
  frame : Nat
  gerr : Nat
  serr : Nat
  serr_ext : Nat
  iso : Nat
  iso_mode : String
  iso_exp : Nat
  gain : Dec10
  gain_exp : Dec10
deriving DecidableEq, Repr

/-- The `#[display(...)]` template of `SrtDebugFrameData`, split into
literal/placeholder segments (placeholders in template order). -/
def debugSegs : List Seg :=
  [.lit "CH:".data, .cap, .lit " MCS:".data, .cap, .lit " SP[ ".data, .cap,
   .lit " ".data, .cap, .lit "  ".data, .cap, .lit " ".data, .cap,
   .lit "] GP[ ".data, .cap, .lit "  ".data, .cap, .lit "  ".data, .cap,
   .lit "  ".data, .cap, .lit "] GTP:".data, .cap, .lit " GTP0:".data, .cap,
   .lit " STP:".data, .cap, .lit " STP0:".data, .cap, .lit " GSNR:".data, .cap,
   .lit " SSNR:".data, .cap, .lit " Gtemp:".data, .cap, .lit " Stemp:".data, .cap,
   .lit " Delay:".data, .cap, .lit "ms Frame:".data, .cap, .lit "  Gerr:".data, .cap,
   .lit " SErr:".data, .cap, .lit " ".data, .cap, .lit ", [iso:".data, .cap,
   .lit ",mode=".data, .cap, .lit ", exp:".data, .cap, .lit "] [gain:".data, .cap,
   .lit " exp:".data, .cap, .lit "ms]".data]

/-- Captures 0-5 of the debug template: channel (u8), signal (u8),
sp1-sp4 (u16). -/
def dbgGroupA (g : Nat → String) : Option (Nat × Nat × Nat × Nat × Nat × Nat) := do
  let channel ← parseU8 (g 0)
  let signal ← parseU8 (g 1)
  let sp1 ← parseU16 (g 2)
  let sp2 ← parseU16 (g 3)
  let sp3 ← parseU16 (g 4)
  let sp4 ← parseU16 (g 5)
  pure (channel, signal, sp1, sp2, sp3, sp4)

/-- Captures 6-13 of the debug template: gp1-gp4, gtp, gtp0, stp, stp0
(all u16). -/
def dbgGroupB (g : Nat → String) :
    Option (Nat × Nat × Nat × Nat × Nat × Nat × Nat × Nat) := do
  let gp1 ← parseU16 (g 6)
  let gp2 ← parseU16 (g 7)
  let gp3 ← parseU16 (g 8)
  let gp4 ← parseU16 (g 9)
  let gtp ← parseU16 (g 10)
  let gtp0 ← parseU16 (g 11)
  let stp ← parseU16 (g 12)
  let stp0 ← parseU16 (g 13)
  pure (gp1, gp2, gp3, gp4, gtp, gtp0, stp, stp0)

/-- Captures 14-17 of the debug template: gsnr, ssnr, gtemp, stemp (f32). -/
def dbgGroupC (g : Nat → String) : Option (Dec10 × Dec10 × Dec10 × Dec10) := do
  let gsnr ← parseF32 (g 14)
  let ssnr ← parseF32 (g 15)
  let gtemp ← parseF32 (g 16)
  let stemp ← parseF32 (g 17)
  pure (gsnr, ssnr, gtemp, stemp)

/-- Captures 18-23 of the debug template: latency (u32), frame, gerr, serr,
serr_ext (u16), iso (u32). -/
def dbgGroupD (g : Nat → String) : Option (Nat × Nat × Nat × Nat × Nat × Nat) := do
  let latency ← parseU32 (g 18)
  let frame ← parseU16 (g 19)
  let gerr ← parseU16 (g 20)
  let serr ← parseU16 (g 21)
  let serr_ext ← parseU16 (g 22)
  let iso ← parseU32 (g 23)
  pure (latency, frame, gerr, serr, serr_ext, iso)

/-- Captures 25-27 of the debug template: iso_exp (u32), gain, gain_exp
(f32); capture 24 (iso_mode) is a plain `String` and cannot fail. -/
def dbgGroupE (g : Nat → String) : Option (Nat × Dec10 × Dec10) := do
  let iso_exp ← parseU32 (g 25)
  let gain ← parseF32 (g 26)
  let gain_exp ← parseF32 (g 27)
  pure (iso_exp, gain, gain_exp)

/-- `line.parse::<SrtDebugFrameData>().ok()`: the derived template parser
(template capture order: channel, signal, sp1-4, gp1-4, gtp, gtp0, stp, stp0,
gsnr, ssnr, gtemp, stemp, latency, frame, gerr, serr, serr_ext, iso,
iso_mode, iso_exp, gain, gain_exp; the capture-to-field parsing is split into
the `dbgGroup` helpers above). -/
def SrtDebugFrameData.parse (s : String) : Option SrtDebugFrameData :=
  match matchTemplate debugSegs s with
  | none => none
  | some caps =>
    if caps.length = 28 then do
      let g : Nat → String := fun i => caps.getD i ""
      let (channel, signal, sp1, sp2, sp3, sp4) ← dbgGroupA g
      let (gp1, gp2, gp3, gp4, gtp, gtp0, stp, stp0) ← dbgGroupB g
      let (gsnr, ssnr, gtemp, stemp) ← dbgGroupC g
      let (latency, frame, gerr, serr, serr_ext, iso) ← dbgGroupD g
      let (iso_exp, gain, gain_exp) ← dbgGroupE g
      pure ⟨signal, channel, latency, sp1, sp2, sp3, sp4, gp1, gp2, gp3, gp4,
        gtp, gtp0, stp, stp0, gsnr, ssnr, gtemp, stemp, frame, gerr, serr,
        serr_ext, iso, g 24, iso_exp, gain, gain_exp⟩
    else none

/-- One telemetry frame (`SrtFrame` in `srt/frame.rs`); times are the cue's
start/end converted to seconds (`f32` in the source, exact `ℚ` here). -/
structure SrtFrame where
  start_time_secs : ℚ
  end_time_secs : ℚ
  data : Option SrtFrameData
  debug_data : Option SrtDebugFrameData
deriving DecidableEq, Repr

/-- One subtitle cue as produced by the external `srtparse` crate: a start
time, an end time and a text body. -/
structure Subtitle where
  start_time : ℚ
  end_time : ℚ
  text : String
deriving DecidableEq, Repr

/-- The per-cue schema dispatch inside `SrtFile::open`: try the Ascent
(extended fixed) schema first; only if it fails, fall back to the generic
schema. -/
def parseLineData (s : String) : Option SrtFrameData :=
  match AscentSrtFrameData.parse s with
  | some a => some a.toSrtFrameData
  | none => SrtFrameData.parseOpt s

/-- The cue-to-frame map of `SrtFile::open`. -/
def cueToFrame (i : Subtitle) : SrtFrame :=
  { start_time_secs := i.start_time
    end_time_secs := i.end_time
    data := parseLineData i.text
    debug_data := SrtDebugFrameData.parse i.text }

/-- The loaded telemetry file (`SrtFile` in `srt/srt_file.rs`), minus the
path: the OR-reduced capability flags, the exact duration and the frames. -/
structure SrtFileData where
  has_signal : Bool
  has_channel : Bool
  has_flight_time : Bool
  has_sky_bat : Bool
  has_ground_bat : Bool
  has_latency : Bool
  has_bitrate : Bool
  has_distance : Bool
  has_hz : Bool
  has_sp : Bool
  has_gp : Bool
  has_air_temp : Bool
  has_gnd_temp : Bool
  has_sty_mode : Bool
  has_debug : Bool
  duration : ℚ
  frames : List SrtFrame
deriving DecidableEq, Repr

/-- Presence of one optional field of a frame's primary record (the
`has_x |= data.x.is_some()` accumulation, expressed as an OR over frames). -/
def framePresent (sel : SrtFrameData → Bool) (fr : SrtFrame) : Bool :=
  (fr.data.map sel).getD false

/-- The pure core of `SrtFile::open`, over the cue list returned by
`srtparse::from_file`.  The closure passed to `map` always returns `Ok`, so
the only failure of the pure part is `srt_frames.last().unwrap()` on an empty
cue list, modelled as `none`.  I/O errors of `srtparse::from_file` itself are
outside this function. -/
def SrtFile.openPure (subs : List Subtitle) : Option SrtFileData :=
  let frames := subs.map cueToFrame
  match frames.getLast? with
  | none => none
  | some lastF =>
    some
      { has_signal := frames.any (framePresent (·.signal.isSome))
        has_channel := frames.any (framePresent (·.channel.isSome))
        has_flight_time := frames.any (framePresent (·.flight_time.isSome))
        has_sky_bat := frames.any (framePresent (·.sky_bat.isSome))
        has_ground_bat := frames.any (framePresent (·.ground_bat.isSome))
        has_latency := frames.any (framePresent (·.latency.isSome))
        has_bitrate := frames.any (framePresent (·.bitrate_mbps.isSome))
        has_distance := frames.any (framePresent (·.distance.isSome))
        has_hz := frames.any (framePresent (·.hz.isSome))
        has_sp := frames.any (framePresent (·.sp.isSome))
        has_gp := frames.any (framePresent (·.gp.isSome))
        has_air_temp := frames.any (framePresent (·.air_temp.isSome))
        has_gnd_temp := frames.any (framePresent (·.gnd_temp.isSome))
        has_sty_mode := frames.any (framePresent (·.sty_mode.isSome))
        has_debug := frames.any (·.debug_data.isSome)
        duration := lastF.end_time_secs
        frames := frames }

/-- ASCII hex digit test (models Rust `char::is_ascii_hexdigit`). -/
def isHexDigitChar (c : Char) : Bool :=
  isDigitChar c || ('a' ≤ c && c ≤ 'f') || ('A' ≤ c && c ≤ 'F')

/-- Value of an ASCII hex digit. -/
def hexVal (c : Char) : Nat :=
  if isDigitChar c then digitVal c
  else if 'a' ≤ c && c ≤ 'f' then c.toNat - 'a'.toNat + 10
  else c.toNat - 'A'.toNat + 10

/-- Worker for `splitLines` (current line accumulated reversed). -/
def splitLinesGo : List Char → List Char → List (List Char)
  | [], acc => if acc.isEmpty then [] else [acc.reverse]
  | '\n' :: rest, acc =>
    (match acc with
     | '\r' :: t => t.reverse
     | _ => acc.reverse) :: splitLinesGo rest []
  | c :: rest, acc => splitLinesGo rest (c :: acc)

/-- Models Rust `str::lines()`: split on `\n`, strip a trailing `\r` from
each line, and no empty final line after a trailing newline. -/
def splitLines (s : List Char) : List (List Char) := splitLinesGo s []

/-- Models Rust `str::trim()` on the ASCII whitespace range (the showinfo
hex dumps the source feeds in are ASCII). -/
def trimChars (l : List Char) : List Char :=
  ((l.dropWhile isSpaceChar).reverse.dropWhile isSpaceChar).reverse

/-- Index of the first `": "` occurrence (models `str::find(": ")`). -/
def colonSpaceIdx : List Char → Option Nat
  | [] => none
  | ':' :: ' ' :: _ => some 0
  | _ :: rest => (colonSpaceIdx rest).map (· + 1)

/-- One iteration of the cleaning loop in `parse_msp_payload`: trim the line
and, if it contains `": "`, keep only what follows (strips `offset:` address
prefixes emitted by showinfo). -/
def cleanLine (l : List Char) : List Char :=
  let t := trimChars l
  match colonSpaceIdx t with
  | some p => t.drop (p + 2)
  | none => t

/-- Models `hex::decode`: pair up hex digits into byte values; an odd number
of digits is an error (the input is already hex-digit-only here). -/
def hexDecodePairs : List Char → Option (List Nat)
  | [] => some []
  | [_] => none
  | a :: b :: rest => (hexDecodePairs rest).map ((hexVal a * 16 + hexVal b) :: ·)

/-- The enumerate-and-filter loop that drops every third byte
(`(i + 1) % 3 == 0` dropped); `i` is the running enumeration index. -/
def dropEveryThirdAux (i : Nat) : List Nat → List Nat
  | [] => []
  | b :: t =>
    if (i + 1) % 3 ≠ 0 then b :: dropEveryThirdAux (i + 1) t
    else dropEveryThirdAux (i + 1) t

/-- `raw_bytes` with every third byte removed. -/
def dropEveryThird (l : List Nat) : List Nat := dropEveryThirdAux 0 l

/-- The inner glyph loop of `parse_msp_payload`: `n` glyphs remain, `offset`
indexes `data`, `i` is the glyph ordinal; each glyph is
`(row, col.saturating_add(i as u8), ((attribute & 0x03) << 8) | data[offset])`
and the loop breaks when `offset` runs off the data. -/
def mspGlyphLoop (data : List Nat) (row col attr : Nat) :
    Nat → Nat → Nat → List (Nat × Nat × Nat)
  | 0, _, _ => []
  | n + 1, offset, i =>
    if offset ≥ data.length then []
    else
      (row, min (col + i % 256) 255, ((attr &&& 0x03) <<< 8) ||| data.getD offset 0) ::
        mspGlyphLoop data row col attr n (offset + 1) (i + 1)

/-- The outer command loop of `parse_msp_payload`: per command a
payload-length byte at `offset`, two skipped bytes, row at `offset+3`,
column at `offset+4`, attribute at `offset+5`, then `payload_len - 4`
(saturating) glyph bytes; the loop breaks when the 6-byte header does not
fit or `offset` runs off the data. -/
def mspCommandLoop (data : List Nat) : Nat → Nat → List (Nat × Nat × Nat)
  | 0, _ => []
  | c + 1, offset =>
    if offset ≥ data.length then []
    else if offset + 6 ≤ data.length then
      let cmd_payload_len := data.getD offset 0
      let row := data.getD (offset + 3) 0
      let col := data.getD (offset + 4) 0
      let attrByte := data.getD (offset + 5) 0
      let num_glyphs := cmd_payload_len - 4
      mspGlyphLoop data row col attrByte num_glyphs (offset + 6) 0 ++
        mspCommandLoop data c (offset + 6 + min num_glyphs (data.length - (offset + 6)))
    else []

/-- `parse_msp_payload` from `osd/artlynk.rs`: clean address prefixes
line-by-line, keep only hex digits, hex-decode, drop every third byte,
require at least 9 bytes, then read byte 0 as the command count and run the
command loop from offset 9.  Returns `(row, col, glyph_index)` triples. -/
def parse_msp_payload (s : String) : Option (List (Nat × Nat × Nat)) :=
  let cleaned := ((splitLines s.data).map cleanLine).flatten
  let clean_hex := cleaned.filter isHexDigitChar
  match hexDecodePairs clean_hex with
  | none => none
  | some raw_bytes =>
    let data := dropEveryThird raw_bytes
    if data.length < 9 then none
    else some (mspCommandLoop data (data.getD 0 0) 9)

/-- Grid cell of a glyph.  Modelled from the spec: the `Glyph`/`GridPosition`
types live in the OSD module's `glyph.rs`, which is not under `src/`; the
spec describes a glyph as an index plus integer column/row on a fixed 53×20
grid. -/
structure GridPosition where
  x : Nat
  y : Nat
deriving DecidableEq, Repr

/-- One placed glyph.  Modelled from the spec (see `GridPosition`). -/
structure Glyph where
  index : Nat
  grid_position : GridPosition
deriving DecidableEq, Repr

/-- One timed OSD frame.  Modelled from the spec: `frame.rs` of the OSD
module is not under `src/`; the spec gives `time_millis` (u32) plus an
ordered glyph list. -/
structure Frame where
  time_millis : Nat
  glyphs : List Glyph
deriving DecidableEq, Repr

/-- `GRID_WIDTH` in `osd/artlynk.rs`. -/
def GRID_WIDTH : Nat := 53

/-- `GRID_HEIGHT` in `osd/artlynk.rs`. -/
def GRID_HEIGHT : Nat := 20

/-- `(*pts * 1000.0) as u32`: Rust float-to-integer `as` casts saturate, so
negative values clamp to 0 and large ones to `u32::MAX`; `pts` (parsed by
the SEI scanner from a decimal `pts_time` field) is modelled as an exact
decimal. -/
def tsMillis (pts : Dec10) : Nat :=
  min (Int.toNat (Dec10.trunc (pts.mul (Dec10.ofNat 1000)))) (2 ^ 32 - 1)

/-- The per-entry body of the frame-assembly loop in
`extract_osd_from_video`: parse the payload (a failing payload contributes
nothing), filter glyphs to column < 53, row < 20, index ∉ {0, 0x20}, and
keep the frame only if some glyph survives. -/
def entryToFrame (e : Dec10 × String) : Option Frame :=
  match parse_msp_payload e.2 with
  | none => none
  | some glyphs_raw =>
    let glyphs := (glyphs_raw.filter fun t =>
        decide (t.2.1 < GRID_WIDTH) && decide (t.1 < GRID_HEIGHT) &&
          t.2.2 != 0x00 && t.2.2 != 0x20).map fun t =>
      { index := t.2.2, grid_position := { x := t.2.1, y := t.1 } }
    if glyphs.isEmpty then none else some { time_millis := tsMillis e.1, glyphs := glyphs }

/-- The frame-assembly loop of `extract_osd_from_video` over all reported
`(pts, hex)` entries. -/
def framesOfEntries (entries : List (Dec10 × String)) : List Frame :=
  entries.filterMap entryToFrame

/-- The assembled OSD file (`OsdFile`), minus the path and firmware tag
(the path is I/O identity; the firmware tag is the constant `Betaflight`).
`duration` is in exact seconds. -/
structure OsdFileData where
  frame_count : Nat
  duration : ℚ
  frames : List Frame
deriving DecidableEq, Repr

/-- Which of the two `extract_sei_data` subprocess invocations (first two
seconds only, or whole file) the control flow actually performs. -/
inductive ScanKind where
  | quick
  | full
deriving DecidableEq, Repr

/-- ASCII lowercasing (models `str::to_lowercase` on ASCII filenames). -/
def toLowerStr (s : String) : String := String.mk (s.data.map Char.toLower)

/-- Substring test (models `str::contains` for a literal pattern). -/
def containsSub (needle : List Char) : List Char → Bool
  | [] => needle.isEmpty
  | c :: rest => needle.isPrefixOf (c :: rest) || containsSub needle rest

/-- `nominal frame interval` of `extract_osd_from_video`: mean spacing
between first and last frame, or 33 ms for a single frame. -/
def frameInterval (frames : List Frame) : ℚ :=
  if frames.length > 1 then
    (((frames.getLastD ⟨0, []⟩).time_millis : ℚ) - ((frames.headD ⟨0, []⟩).time_millis : ℚ)) /
      ((frames.length : ℚ) - 1)
  else 33

/-- `extract_osd_from_video` from `osd/artlynk.rs`, with its two
`extract_sei_data` subprocess calls modelled as oracle inputs: `quick` is
what a first-two-seconds scan would report and `full` what a whole-file scan
would report.  The second component records which scans the control flow
actually ran, in order.  `Ok(None)` branches are `none`; the hard error
branch of the signature is never taken by this body. -/
def extract_osd_from_video (filename : String) (quick full : List (Dec10 × String)) :
    Option OsdFileData × List ScanKind :=
  let lower := toLowerStr filename
  if containsSub "ascent".data lower.data || containsSub "avatar".data lower.data then
    (none, [])
  else if quick.isEmpty then (none, [ScanKind.quick])
  else if full.isEmpty then (none, [ScanKind.quick, ScanKind.full])
  else
    let frames := framesOfEntries full
    if frames.isEmpty then (none, [ScanKind.quick, ScanKind.full])
    else
      ((some
        { frame_count := frames.length
          duration := ((frames.getLastD ⟨0, []⟩).time_millis : ℚ) / 1000 +
            frameInterval frames / 1000
          frames := frames }),
        [ScanKind.quick, ScanKind.full])

/-- The character-cell size classes.  Modelled from the spec: the enum lives
in the font module, which is not under `src/`; the overlay code only needs
the five classes the lookup table produces. -/
inductive CharacterSize where
  | Race
  | Small
  | Large
  | XLarge
  | Ultra
deriving DecidableEq, Repr

/-- Cell width in pixels.  Modelled from the spec: the numeric cell
dimensions live in the font module (not under `src/`); representative fixed
values are used and no claim depends on the specific numbers. -/
def CharacterSize.width : CharacterSize → Nat
  | .Race => 12
  | .Small => 24
  | .Large => 36
  | .XLarge => 48
  | .Ultra => 72

/-- Cell height in pixels (see `CharacterSize.width`). -/
def CharacterSize.height : CharacterSize → Nat
  | .Race => 18
  | .Small => 36
  | .Large => 54
  | .XLarge => 72
  | .Ultra => 108

/-- `get_character_size` from `overlay/osd.rs`.  The source computes
`is_4_3` as `(width as f32 / height as f32) < 1.5`; this is embedded as the
exact comparison `2 * width < 3 * height`, which agrees with the `f32`
computation for every `u32` width at the two heights (1080, 1440) where the
flag is consulted: there the nearest ratio to 1.5 reachable by an integer
width is about 1.4991, far beyond an `f32` rounding error. -/
def get_character_size (width height : Nat) : CharacterSize :=
  let is_4_3 := 2 * width < 3 * height
  if height = 540 then .Race
  else if height = 720 then .Small
  else if height = 1080 then (if is_4_3 then .Small else .Large)
  else if height = 1440 then (if is_4_3 then .Large else .XLarge)
  else if height = 2160 then .Ultra
  else .Large

/-- The size-class table exactly as the claim states it (4:3 meaning
width/height < 1.5 as an exact ratio), for comparison with
`get_character_size`. -/
def characterSizeSpecTable (width height : Nat) : CharacterSize :=
  if height = 540 then .Race
  else if height = 720 then .Small
  else if height = 1080 then
    (if (width : ℚ) / (height : ℚ) < 3 / 2 then .Small else .Large)
  else if height = 1440 then
    (if (width : ℚ) / (height : ℚ) < 3 / 2 then .Large else .XLarge)
  else if height = 2160 then .Ultra
  else .Large

/-- One RGBA pixel (channel values are `u8` in the image crate). -/
structure Rgba where
  r : Nat
  g : Nat
  b : Nat
  a : Nat
deriving DecidableEq, Repr

/-- An `image::RgbaImage`: dimensions plus per-coordinate pixel contents. -/
structure RgbaImage where
  width : Nat
  height : Nat
  pix : Nat → Nat → Rgba

/-- `RgbaImage::new(w, h)`: the image crate zero-fills, so every pixel is
fully transparent black. -/
def RgbaImage.new (w h : Nat) : RgbaImage :=
  { width := w, height := h, pix := fun _ _ => ⟨0, 0, 0, 0⟩ }

/-- Models `imageops::resize(img, w, h, Lanczos3)` as a dimension-correct
resampling (nearest source pixel); the Lanczos kernel is external library
behaviour and no claim depends on resampled pixel values, only on the
result's dimensions and on how often resizing happens. -/
def resizeImg (img : RgbaImage) (w h : Nat) : RgbaImage :=
  { width := w, height := h
    pix := fun x y => img.pix (x * img.width / max w 1) (y * img.height / max h 1) }

/-- Source-over alpha blending of one pixel, integer arithmetic; the image
crate's exact rounding is external library behaviour and no claim depends on
blended channel values. -/
def blendPix (bot top : Rgba) : Rgba :=
  if top.a = 0 then bot
  else if top.a = 255 then top
  else
    { r := (top.r * top.a + bot.r * (255 - top.a)) / 255
      g := (top.g * top.a + bot.g * (255 - top.a)) / 255
      b := (top.b * top.a + bot.b * (255 - top.a)) / 255
      a := top.a + bot.a * (255 - top.a) / 255 }

/-- Models `imageops::overlay(bottom, top, x, y)`: blend `top` onto `bottom`
at signed offset `(ox, oy)`; pixels outside the placed region are
untouched. -/
def overlayImg (bottom top : RgbaImage) (ox oy : Int) : RgbaImage :=
  { width := bottom.width
    height := bottom.height
    pix := fun x y =>
      if ox ≤ (x : Int) ∧ (x : Int) < ox + top.width ∧
          oy ≤ (y : Int) ∧ (y : Int) < oy + top.height then
        blendPix (bottom.pix x y) (top.pix ((x : Int) - ox).toNat ((y : Int) - oy).toNat)
      else bottom.pix x y }

/-- The font glyph source.  Modelled from the spec: the font module is not
under `src/`; it maps a glyph index to a decoded image, or nothing when the
font lacks that index. -/
structure FontFile where
  getCharacter : Nat → Option RgbaImage

/-- Pixel position of the OSD block.  Modelled from the spec: `OsdOptions`
lives in the OSD module's `options.rs`, not under `src/`. -/
structure OsdPosition where
  x : Int
  y : Int
deriving DecidableEq, Repr

/-- OSD overlay options.  Modelled from the spec: a scale percentage, a
configured pixel position and a set of masked grid positions, read-only
here. -/
structure OsdOptions where
  scale : Dec10
  position : OsdPosition
  mask : List GridPosition

/-- `osd_options.get_mask(&position)`: membership in the masked set. -/
def OsdOptions.get_mask (o : OsdOptions) (p : GridPosition) : Bool :=
  decide (p ∈ o.mask)

/-- `(x as f32).round() as u32`: round half away from zero, saturating the
cast at 0 and `u32::MAX`. -/
def roundToU32 (d : Dec10) : Nat := min (Int.toNat d.round) (2 ^ 32 - 1)

/-- `get_scaled_glyph` from `overlay/osd.rs`: fetch the glyph image and
resize it only when the effective scaled size differs from the base cell
size. -/
def get_scaled_glyph (font : FontFile) (character_index : Nat)
    (base_character_size : CharacterSize) (scaled_width scaled_height : Nat) :
    Option RgbaImage :=
  (font.getCharacter character_index).map fun character_image =>
    if scaled_width ≠ base_character_size.width ∨
        scaled_height ≠ base_character_size.height then
      resizeImg character_image scaled_width scaled_height
    else character_image

/-- Ghost record of one `overlay` (composition) call: which glyph, at which
grid cell, placed at which pixel offset with which image dimensions.  The
render functions below return these logs so that theorems can speak about
which pixel writes a call performs; the logs do not influence the computed
image. -/
structure CompEntry where
  index : Nat
  pos : GridPosition
  px : Int
  py : Int
  w : Nat
  h : Nat
deriving DecidableEq, Repr

/-- The pixel region a composition entry may write to. -/
def CompEntry.inRegion (e : CompEntry) (x y : Nat) : Prop :=
  e.px ≤ (x : Int) ∧ (x : Int) < e.px + e.w ∧ e.py ≤ (y : Int) ∧ (y : Int) < e.py + e.h

instance (e : CompEntry) (x y : Nat) : Decidable (e.inRegion x y) := by
  unfold CompEntry.inRegion; infer_instance

/-- The pixel x-coordinate a glyph is composited at:
`grid_x * scaled_width + position.x + offset.0`. -/
def glyphPx (osd_options : OsdOptions) (offset : Int × Int) (scaled_width : Nat)
    (g : Glyph) : Int :=
  (g.grid_position.x : Int) * scaled_width + osd_options.position.x + offset.1

/-- The pixel y-coordinate a glyph is composited at:
`grid_y * scaled_height + position.y + offset.1`. -/
def glyphPy (osd_options : OsdOptions) (offset : Int × Int) (scaled_height : Nat)
    (g : Glyph) : Int :=
  (g.grid_position.y : Int) * scaled_height + osd_options.position.y + offset.2

/-- One glyph step of `overlay_osd`: skip index-0 and masked glyphs and
glyphs the font lacks; otherwise alpha-blend the scaled glyph at
`(grid_x * scaled_width + position.x + offset.0,
  grid_y * scaled_height + position.y + offset.1)`
(signed arithmetic, `i32` in the source), with a ghost log entry per
composition call. -/
def uncachedGlyphStep (font : FontFile) (osd_options : OsdOptions)
    (base_character_size : CharacterSize) (scaled_width scaled_height : Nat)
    (offset : Int × Int) (acc : RgbaImage × List CompEntry) (character : Glyph) :
    RgbaImage × List CompEntry :=
  if character.index = 0 || osd_options.get_mask character.grid_position then acc
  else
    match get_scaled_glyph font character.index base_character_size
        scaled_width scaled_height with
    | some scaled_image =>
      let px := glyphPx osd_options offset scaled_width character
      let py := glyphPy osd_options offset scaled_height character
      (overlayImg acc.1 scaled_image px py,
        acc.2 ++ [⟨character.index, character.grid_position, px, py,
          scaled_image.width, scaled_image.height⟩])
    | none => acc

/-- `overlay_osd` from `overlay/osd.rs` (uncached preview path): fold
`uncachedGlyphStep` over the frame's glyphs. -/
def overlay_osd (image : RgbaImage) (osd_frame : Frame) (font : FontFile)
    (osd_options : OsdOptions) (offset : Int × Int) : RgbaImage × List CompEntry :=
  let base_character_size := get_character_size image.width image.height
  let scale_factor := osd_options.scale.div100
  let scaled_width := roundToU32 ((Dec10.ofNat base_character_size.width).mul scale_factor)
  let scaled_height := roundToU32 ((Dec10.ofNat base_character_size.height).mul scale_factor)
  osd_frame.glyphs.foldl
    (uncachedGlyphStep font osd_options base_character_size scaled_width scaled_height offset)
    (image, [])

/-- Specification of the single composition call (if any) that
`uncachedGlyphStep` performs for one glyph: none for index-0, masked or
font-missing glyphs, otherwise the ghost log entry of the blend. -/
def uncachedEntry (font : FontFile) (osd_options : OsdOptions)
    (base_character_size : CharacterSize) (scaled_width scaled_height : Nat)
    (offset : Int × Int) (g : Glyph) : Option CompEntry :=
  if decide (g.index = 0) || osd_options.get_mask g.grid_position then none
  else
    (get_scaled_glyph font g.index base_character_size scaled_width scaled_height).map
      fun im => ⟨g.index, g.grid_position, glyphPx osd_options offset scaled_width g,
        glyphPy osd_options offset scaled_height g, im.width, im.height⟩

/-- State threaded by `overlay_osd_cached`: the image being composited, the
glyph cache, and ghost logs of cache misses (`fetched`: indices for which
`get_scaled_glyph` was computed) and of composition calls. -/
structure CachedState where
  image : RgbaImage
  cache : List (Nat × RgbaImage)
  fetched : List Nat
  composed : List CompEntry

/-- `HashMap::get`-style lookup in the glyph cache. -/
def cacheLookup : List (Nat × RgbaImage) → Nat → Option RgbaImage
  | [], _ => none
  | (k, v) :: t, i => if k = i then some v else cacheLookup t i

/-- One glyph step of `overlay_osd_cached`: skip index-0 and masked glyphs;
otherwise take the cached image or — on a miss (`entry(..).or_insert_with`) —
compute `get_scaled_glyph`, substituting a fully transparent image of the
scaled size when the font lacks the glyph, and store it; then composite
unconditionally. -/
def cachedGlyphStep (font : FontFile) (osd_options : OsdOptions)
    (base_character_size : CharacterSize) (scaled_width scaled_height : Nat)
    (offset : Int × Int) (st : CachedState) (character : Glyph) : CachedState :=
  if character.index = 0 || osd_options.get_mask character.grid_position then st
  else
    let (scaled_image, cache2, fetched2) :=
      match cacheLookup st.cache character.index with
      | some im => (im, st.cache, st.fetched)
      | none =>
        let im := (get_scaled_glyph font character.index base_character_size
            scaled_width scaled_height).getD (RgbaImage.new scaled_width scaled_height)
        (im, (character.index, im) :: st.cache, st.fetched ++ [character.index])
    let px := glyphPx osd_options offset scaled_width character
    let py := glyphPy osd_options offset scaled_height character
    { image := overlayImg st.image scaled_image px py
      cache := cache2
      fetched := fetched2
      composed := st.composed ++ [⟨character.index, character.grid_position,
        px, py, scaled_image.width, scaled_image.height⟩] }

/-- `overlay_osd_cached` from `overlay/osd.rs` (render path): like
`overlay_osd` but with a persistent glyph cache, returning the threaded
state (image, updated cache, ghost logs). -/
def overlay_osd_cached (image : RgbaImage) (osd_frame : Frame) (font : FontFile)
    (osd_options : OsdOptions) (offset : Int × Int)
    (glyph_cache : List (Nat × RgbaImage)) : CachedState :=
  let base_character_size := get_character_size image.width image.height
  let scale_factor := osd_options.scale.div100
  let scaled_width := roundToU32 ((Dec10.ofNat base_character_size.width).mul scale_factor)
  let scaled_height := roundToU32 ((Dec10.ofNat base_character_size.height).mul scale_factor)
  osd_frame.glyphs.foldl
    (cachedGlyphStep font osd_options base_character_size scaled_width scaled_height offset)
    { image := image, cache := glyph_cache, fetched := [], composed := [] }

/-- One render session: the per-frame images share one resolution (one
decoder), so the scaled glyph size is fixed; the glyph cache is threaded
through all frames and the per-call fetch logs are concatenated. -/
def runCachedSession (font : FontFile) (osd_options : OsdOptions) (offset : Int × Int) :
    List (Frame × RgbaImage) → List (Nat × RgbaImage) → List (Nat × RgbaImage) × List Nat
  | [], cache => (cache, [])
  | (fr, img) :: rest, cache =>
    let st := overlay_osd_cached img fr font osd_options offset cache
    let (cacheEnd, fetchedRest) := runCachedSession font osd_options offset rest st.cache
    (cacheEnd, st.fetched ++ fetchedRest)

/-! ## General helper lemmas (shared by several claim theorems) -/

theorem dropWhile_len_le (p : Char → Bool) (l : List Char) :
    (List.dropWhile p l).length ≤ l.length := by
  induction l with
  | nil => simp [List.dropWhile]
  | cons a t ih =>
    rw [List.dropWhile_cons]
    split
    · exact Nat.le_succ_of_le ih
    · exact Nat.le_refl _

theorem stripLit_length : ∀ (l s s2 : List Char), stripLit l s = some s2 → s2.length ≤ s.length := by
  intro l
  induction l with
  | nil => intro s s2 h; cases h; exact Nat.le_refl _
  | cons a t ih =>
    intro s s2 h
    cases s with
    | nil => cases h
    | cons b r =>
      simp only [stripLit] at h
      split at h
      · exact Nat.le_succ_of_le (ih r s2 h)
      · cases h

/-- The fuel passed to `matchSegsF` only bounds backtracking depth: any two
fuels at least `segsFuel segs s` produce the same result (and similarly for
`capFromF` with its own bound), so `matchSegs` computes the fuel-free lazy
match. -/
theorem matchSegsFuel_stable :
    ∀ N : Nat,
      (∀ f g segs (s : List Char), f + g ≤ N → segsFuel segs s ≤ f →
        segsFuel segs s ≤ g → matchSegsF f segs s = matchSegsF g segs s) ∧
      (∀ f g segs (s acc : List Char), f + g ≤ N →
        2 * segs.length + s.length + 2 ≤ f → 2 * segs.length + s.length + 2 ≤ g →
        capFromF f segs acc s = capFromF g segs acc s) := by
  intro N
  induction N with
  | zero =>
    constructor
    · intro f g segs s hfg hf hg
      exfalso; unfold segsFuel at hf; omega
    · intro f g segs s acc hfg hf hg
      exfalso; omega
  | succ n ih =>
    constructor
    · intro f g segs s hfg hf hg
      unfold segsFuel at hf hg
      obtain ⟨f2, rfl⟩ : ∃ f2, f = f2 + 1 := ⟨f - 1, by omega⟩
      obtain ⟨g2, rfl⟩ : ∃ g2, g = g2 + 1 := ⟨g - 1, by omega⟩
      cases segs with
      | nil => cases s <;> simp [matchSegsF]
      | cons sg rest =>
        cases sg with
        | lit l =>
          simp only [matchSegsF]
          cases hs : stripLit l s with
          | none => rfl
          | some s2 =>
            have hlen := stripLit_length l s s2 hs
            simp only [List.length_cons] at hf hg
            exact ih.1 f2 g2 rest s2 (by omega) (by unfold segsFuel; omega)
              (by unfold segsFuel; omega)
        | cap =>
          simp only [matchSegsF]
          simp only [List.length_cons] at hf hg
          exact ih.2 f2 g2 rest s [] (by omega) (by omega) (by omega)
    · intro f g segs s acc hfg hf hg
      obtain ⟨f2, rfl⟩ : ∃ f2, f = f2 + 1 := ⟨f - 1, by omega⟩
      obtain ⟨g2, rfl⟩ : ∃ g2, g = g2 + 1 := ⟨g - 1, by omega⟩
      simp only [capFromF]
      have hm : matchSegsF f2 segs s = matchSegsF g2 segs s :=
        ih.1 f2 g2 segs s (by omega) (by unfold segsFuel; omega) (by unfold segsFuel; omega)
      rw [hm]
      cases matchSegsF g2 segs s with
      | some cs => rfl
      | none =>
        cases s with
        | nil => rfl
        | cons c s2 =>
          simp only [List.length_cons] at hf hg
          exact ih.2 f2 g2 segs s2 (c :: acc) (by omega) (by omega) (by omega)

/-- Any sufficient fuel computes `matchSegs`. -/
theorem matchSegsF_eq_matchSegs (f : Nat) (segs : List Seg) (s : List Char)
    (hf : segsFuel segs s ≤ f) : matchSegsF f segs s = matchSegs segs s :=
  (matchSegsFuel_stable (f + segsFuel segs s)).1 f (segsFuel segs s) segs s
    (Nat.le_refl _) hf (Nat.le_refl _)

/-- The fuel of `stripRevAllF` only bounds depth: any two fuels above the
string length agree. -/
theorem stripRevAllF_stable :
    ∀ (n : Nat) (pr r : List Char) (f g : Nat), r.length < f → r.length < g →
      r.length ≤ n → stripRevAllF f pr r = stripRevAllF g pr r := by
  intro n
  induction n with
  | zero =>
    intro pr r f g hf hg hn
    have hr : r = [] := List.length_eq_zero.mp (Nat.le_zero.mp hn)
    subst hr
    obtain ⟨f2, rfl⟩ : ∃ f2, f = f2 + 1 := ⟨f - 1, by omega⟩
    obtain ⟨g2, rfl⟩ : ∃ g2, g = g2 + 1 := ⟨g - 1, by omega⟩
    simp only [stripRevAllF]
    by_cases hc : pr ≠ [] ∧ pr.isPrefixOf ([] : List Char)
    · exfalso
      obtain ⟨hne, hp⟩ := hc
      cases pr with
      | nil => exact hne rfl
      | cons a t => simp [List.isPrefixOf] at hp
    · rw [if_neg hc, if_neg hc]
  | succ n ih =>
    intro pr r f g hf hg hn
    obtain ⟨f2, rfl⟩ : ∃ f2, f = f2 + 1 := ⟨f - 1, by omega⟩
    obtain ⟨g2, rfl⟩ : ∃ g2, g = g2 + 1 := ⟨g - 1, by omega⟩
    simp only [stripRevAllF]
    by_cases hc : pr ≠ [] ∧ pr.isPrefixOf r
    · rw [if_pos hc, if_pos hc]
      have hple : pr.length ≤ r.length :=
        (List.isPrefixOf_iff_prefix.mp hc.2).length_le
      have hppos : 0 < pr.length := List.length_pos.mpr hc.1
      have hdrop : (r.drop pr.length).length = r.length - pr.length := List.length_drop _ _
      exact ih pr (r.drop pr.length) f2 g2 (by omega) (by omega) (by omega)
    · rw [if_neg hc, if_neg hc]

/-- A successful `scanStep?` consumes at least one character: the
continuation is no longer than the tail. -/
theorem scanStep?_length (c : Char) (rest : List Char) (kv : String × String)
    (cont : List Char) (h : scanStep? (c :: rest) = some (kv, cont)) :
    cont.length ≤ rest.length := by
  unfold scanStep? at h
  by_cases hk : (List.takeWhile isWordChar (c :: rest)).isEmpty
  · rw [if_pos hk] at h; cases h
  · rw [if_neg hk] at h
    have hak : (List.dropWhile isWordChar (c :: rest)).length ≤ rest.length + 1 := by
      simpa using dropWhile_len_le isWordChar (c :: rest)
    have hkne : List.takeWhile isWordChar (c :: rest) ≠ [] := by
      intro he; rw [he] at hk; exact hk rfl
    have hwc : isWordChar c = true := by
      by_cases hw : isWordChar c
      · exact hw
      · exfalso
        apply hkne
        rw [List.takeWhile_cons]
        simp [hw]
    have hakc : List.dropWhile isWordChar (c :: rest) =
        List.dropWhile isWordChar rest := by
      rw [List.dropWhile_cons]
      simp [hwc]
    have hak2 : (List.dropWhile isWordChar (c :: rest)).length ≤ rest.length := by
      rw [hakc]; exact dropWhile_len_le _ _
    split at h
    · rename_i r2 heq
      have hr2 : r2.length + 1 ≤ rest.length := by
        rw [heq] at hak2; simpa using hak2
      have h3 : (List.dropWhile isSpaceChar r2).length ≤ r2.length :=
        dropWhile_len_le _ _
      have h4 : (List.dropWhile isValueChar (List.dropWhile isSpaceChar r2)).length ≤
          (List.dropWhile isSpaceChar r2).length := dropWhile_len_le _ _
      by_cases hv : (List.takeWhile isValueChar (List.dropWhile isSpaceChar r2)).isEmpty
      · rw [if_pos hv] at h; cases h
      · rw [if_neg hv] at h
        cases h
        omega
    · cases h

/-- The fuel of `scanCapturesF` only bounds depth: any two fuels above the
list length agree, so `scanCaptures` computes the fuel-free scan. -/
theorem scanCapturesF_stable :
    ∀ (n : Nat) (l : List Char) (f g : Nat), l.length < f → l.length < g →
      l.length ≤ n → scanCapturesF f l = scanCapturesF g l := by
  intro n
  induction n with
  | zero =>
    intro l f g hf hg hn
    have hr : l = [] := List.length_eq_zero.mp (Nat.le_zero.mp hn)
    subst hr
    obtain ⟨f2, rfl⟩ : ∃ f2, f = f2 + 1 := ⟨f - 1, by omega⟩
    obtain ⟨g2, rfl⟩ : ∃ g2, g = g2 + 1 := ⟨g - 1, by omega⟩
    simp [scanCapturesF]
  | succ n ih =>
    intro l f g hf hg hn
    obtain ⟨f2, rfl⟩ : ∃ f2, f = f2 + 1 := ⟨f - 1, by omega⟩
    obtain ⟨g2, rfl⟩ : ∃ g2, g = g2 + 1 := ⟨g - 1, by omega⟩
    cases l with
    | nil => simp [scanCapturesF]
    | cons c rest =>
      simp only [scanCapturesF, List.length_cons] at hf hg hn ⊢
      cases hs : scanStep? (c :: rest) with
      | none => exact ih rest f2 g2 (by omega) (by omega) (by omega)
      | some p =>
        obtain ⟨kv, cont⟩ := p
        have hc := scanStep?_length c rest kv cont hs
        simp only []
        congr 1
        exact ih cont f2 g2 (by omega) (by omega) (by omega)

/-- The 4:3 test: the exact ratio comparison agrees with the integer
comparison embedded in `get_character_size`. -/
theorem ratio_4_3_iff (w h : Nat) (hh : 0 < h) :
    ((w : ℚ) / (h : ℚ) < 3 / 2) ↔ 2 * w < 3 * h := by
  have hq : (0 : ℚ) < (h : ℚ) := by exact_mod_cast hh
  rw [div_lt_iff hq]
  constructor
  · intro hlt
    have h2 : ((2 * w : ℕ) : ℚ) < ((3 * h : ℕ) : ℚ) := by push_cast; nlinarith
    exact_mod_cast h2
  · intro hlt
    have h2 : ((2 * w : ℕ) : ℚ) < ((3 * h : ℕ) : ℚ) := by exact_mod_cast hlt
    push_cast at h2
    nlinarith

/-! ## Claim theorems -/

/-- C4: for every (width, height) pair, `get_character_size` returns exactly
the class of the fixed table keyed on height and aspect ratio (4:3 meaning
width/height < 1.5): 540 → Race, 720 → Small, 1080 → Small if 4:3 else
Large, 1440 → Large if 4:3 else XLarge, 2160 → Ultra, any other height →
Large; in particular 1920×1080 → Large, 1440×1080 → Small, and height 2160
with any width → Ultra. -/
theorem character_size_table :
    (∀ w h, get_character_size w h = characterSizeSpecTable w h) ∧
    get_character_size 1920 1080 = CharacterSize.Large ∧
    get_character_size 1440 1080 = CharacterSize.Small ∧
    (∀ w, get_character_size w 2160 = CharacterSize.Ultra) := by
  refine ⟨?_, by decide, by decide, fun w => by rfl⟩
  intro w h
  by_cases h1 : h = 540
  · subst h1; rfl
  · by_cases h2 : h = 720
    · subst h2; rfl
    · by_cases h3 : h = 1080
      · subst h3
        show (if 2 * w < 3 * 1080 then CharacterSize.Small else CharacterSize.Large) =
          (if (w : ℚ) / ((1080 : ℕ) : ℚ) < 3 / 2 then CharacterSize.Small
            else CharacterSize.Large)
        by_cases hw : 2 * w < 3 * 1080
        · rw [if_pos hw, if_pos ((ratio_4_3_iff w 1080 (by norm_num)).mpr hw)]
        · rw [if_neg hw, if_neg (fun hc => hw ((ratio_4_3_iff w 1080 (by norm_num)).mp hc))]
      · by_cases h4 : h = 1440
        · subst h4
          show (if 2 * w < 3 * 1440 then CharacterSize.Large else CharacterSize.XLarge) =
            (if (w : ℚ) / ((1440 : ℕ) : ℚ) < 3 / 2 then CharacterSize.Large
              else CharacterSize.XLarge)
          by_cases hw : 2 * w < 3 * 1440
          · rw [if_pos hw, if_pos ((ratio_4_3_iff w 1440 (by norm_num)).mpr hw)]
          · rw [if_neg hw,
              if_neg (fun hc => hw ((ratio_4_3_iff w 1440 (by norm_num)).mp hc))]
        · by_cases h5 : h = 2160
          · subst h5; rfl
          · unfold get_character_size characterSizeSpecTable
            simp only [if_neg h1, if_neg h2, if_neg h3, if_neg h4, if_neg h5]

/-- C9: if the scan restricted to the first two seconds reports no metadata
entry, `extract_osd_from_video` reports no embedded OSD (`none`) and the
full-file scan is never run. -/
theorem quick_scan_short_circuit (filename : String) (quick full : List (Dec10 × String))
    (h : quick = []) :
    (extract_osd_from_video filename quick full).1 = none ∧
    ScanKind.full ∉ (extract_osd_from_video filename quick full).2 := by
  subst h
  unfold extract_osd_from_video
  by_cases hm : (containsSub "ascent".data (toLowerStr filename).data ||
      containsSub "avatar".data (toLowerStr filename).data) = true
  · simp [hm]
  · simp [hm]

/-- Witness for C9 at a concrete input. -/
theorem quick_scan_short_circuit_witness :
    (extract_osd_from_video "video.mp4" [] [(⟨0, 0⟩, "01")]).1 = none ∧
    ScanKind.full ∉ (extract_osd_from_video "video.mp4" [] [(⟨0, 0⟩, "01")]).2 :=
  quick_scan_short_circuit "video.mp4" [] [(⟨0, 0⟩, "01")] rfl

/-- An unrecognized key leaves the record untouched. -/
theorem applyCapture_unrecognized (d : SrtFrameData) (kv : String × String)
    (h : kv.1 ∉ (["Signal", "MCS", "CH", "FlightTime", "SBat", "GBat", "Delay",
      "Bitrate", "Distance", "AirTemp", "GndTemp", "STYMode"] : List String)) :
    applyCapture d kv = d := by
  obtain ⟨k, v⟩ := kv
  simp only [List.mem_cons, List.mem_singleton, not_or] at h
  unfold applyCapture
  split <;> first | rfl | simp_all

/-- Folding only unrecognized captures leaves the record untouched. -/
theorem foldl_applyCapture_unrecognized :
    ∀ (caps : List (String × String)) (d : SrtFrameData),
      (∀ kv ∈ caps, kv.1 ∉ (["Signal", "MCS", "CH", "FlightTime", "SBat", "GBat",
        "Delay", "Bitrate", "Distance", "AirTemp", "GndTemp", "STYMode"] : List String)) →
      caps.foldl applyCapture d = d := by
  intro caps
  induction caps with
  | nil => intro d _; rfl
  | cons kv t ih =>
    intro d h
    rw [List.foldl_cons, applyCapture_unrecognized d kv (h kv (by simp))]
    exact ih d fun x hx => h x (by simp [hx])

/-- The per-cue dispatch always yields a record (the generic fallback never
fails). -/
theorem parseLineData_isSome (s : String) : (parseLineData s).isSome := by
  unfold parseLineData
  cases AscentSrtFrameData.parse s <;>
    simp [SrtFrameData.parseOpt, SrtFrameData.fromStr, Except.toOption]

/-- C1: the per-cue parser of `SrtFile::open` tries the extended fixed
(Ascent) schema before the generic schema and the first success wins: a line
the Ascent schema accepts is never parsed by the generic schema (the result
is exactly the converted Ascent record, and only when the Ascent schema
fails is the generic parser consulted); on the documented example line the
Ascent schema succeeds with hz = 5805000, sp = 19, gp = 17, signal = 4,
latency = 37, bitrate = 25.0, distance = 0, and the fields absent from that
schema (air/ground temperature, mode code) remain absent. -/
theorem ascent_schema_priority :
    (∀ s a, AscentSrtFrameData.parse s = some a →
      parseLineData s = some a.toSrtFrameData) ∧
    (∀ s, AscentSrtFrameData.parse s = none →
      parseLineData s = SrtFrameData.parseOpt s) ∧
    AscentSrtFrameData.parse
        "Signal:4 CH:AUTO Hz:5805000 FlightTime:0 Sp=19 Gp=17 SBat:5.0V GBat:11.6V Delay:37ms Bitrate:25.0Mbps Distance:0m" =
      some ⟨4, "AUTO", 5805000, 0, 19, 17, ⟨5, 0⟩, ⟨116, -1⟩, 37, ⟨25, 0⟩, 0⟩ ∧
    parseLineData
        "Signal:4 CH:AUTO Hz:5805000 FlightTime:0 Sp=19 Gp=17 SBat:5.0V GBat:11.6V Delay:37ms Bitrate:25.0Mbps Distance:0m" =
      some ⟨some 4, some "AUTO", some 0, some ⟨5, 0⟩, some ⟨116, -1⟩, some 37,
        some ⟨25, 0⟩, some 0, some 5805000, some 19, some 17, none, none, none⟩ := by
  refine ⟨?_, ?_, by decide, by decide⟩
  · intro s a h
    unfold parseLineData
    rw [h]
  · intro s h
    unfold parseLineData
    rw [h]

/-- Witness for C1: both priority branches applied at concrete lines. -/
theorem ascent_schema_priority_witness :
    parseLineData
        "Signal:4 CH:AUTO Hz:5805000 FlightTime:0 Sp=19 Gp=17 SBat:5.0V GBat:11.6V Delay:37ms Bitrate:25.0Mbps Distance:0m" =
      some (AscentSrtFrameData.toSrtFrameData
        ⟨4, "AUTO", 5805000, 0, 19, 17, ⟨5, 0⟩, ⟨116, -1⟩, 37, ⟨25, 0⟩, 0⟩) ∧
    parseLineData "x" = SrtFrameData.parseOpt "x" :=
  ⟨ascent_schema_priority.1 _ _ (by decide), ascent_schema_priority.2.1 "x" (by decide)⟩

/-- C5: the generic schema parses the documented irregular line to
signal = 4, channel = "3", flight_time = 0, sky_bat = 7.11,
ground_bat = 7.54, bitrate = 4.0, distance = 0, air_temp = 49,
gnd_temp = 34, sty_mode = 1 with latency absent; in general it strips the
trailing unit suffixes `V`, `ms`, `Mbps`, `m`, ignores unrecognized keys,
and a recognized key with an unparsable value yields an absent field rather
than an error. -/
theorem generic_schema_tolerance :
    SrtFrameData.parseOpt
        "Signal:4 CH: 3 FlightTime:   0 SBat:7.11 GBat:7.54 Bitrate: 4Mbps Distance:     0m STYMode:1 AirTemp: 49 GndTemp: 34" =
      some ⟨some 4, some "3", some 0, some ⟨711, -2⟩, some ⟨754, -2⟩, none,
        some ⟨4, 0⟩, some 0, none, none, none, some 49, some 34, some 1⟩ ∧
    (∀ d v, (applyCapture d ("SBat", v)).sky_bat = parseF32 (trimEndMatches v "V")) ∧
    (∀ d v, (applyCapture d ("GBat", v)).ground_bat = parseF32 (trimEndMatches v "V")) ∧
    (∀ d v, (applyCapture d ("Delay", v)).latency = parseU32 (trimEndMatches v "ms")) ∧
    (∀ d v, (applyCapture d ("Bitrate", v)).bitrate_mbps =
      parseF32 (trimEndMatches v "Mbps")) ∧
    (∀ d v, (applyCapture d ("Distance", v)).distance = parseU32 (trimEndMatches v "m")) ∧
    (∀ d kv, kv.1 ∉ (["Signal", "MCS", "CH", "FlightTime", "SBat", "GBat", "Delay",
        "Bitrate", "Distance", "AirTemp", "GndTemp", "STYMode"] : List String) →
      applyCapture d kv = d) ∧
    (∀ d v, parseU8 v = none → (applyCapture d ("Signal", v)).signal = none) := by
  refine ⟨by decide, fun d v => rfl, fun d v => rfl, fun d v => rfl, fun d v => rfl,
    fun d v => rfl, applyCapture_unrecognized, ?_⟩
  intro d v h
  rw [show (applyCapture d ("Signal", v)).signal = parseU8 v from rfl, h]

/-- Witness for C5: the hypothesis-bearing conjuncts applied concretely. -/
theorem generic_schema_tolerance_witness :
    applyCapture SrtFrameData.empty ("Foo", "1") = SrtFrameData.empty ∧
    (applyCapture SrtFrameData.empty ("Signal", "x")).signal = none :=
  ⟨generic_schema_tolerance.2.2.2.2.2.2.1 SrtFrameData.empty ("Foo", "1") (by decide),
   generic_schema_tolerance.2.2.2.2.2.2.2 SrtFrameData.empty "x" (by decide)⟩

/-- C10 (implicit): the generic-schema parser is infallible — the declared
error branch of `SrtFrameData::from_str` is never produced — and a line with
no recognized key:value capture yields the all-absent record, so any line at
all is accepted as a (possibly all-absent) telemetry record. -/
theorem generic_parser_total :
    (∀ s, ∃ d, SrtFrameData.fromStr s = Except.ok d) ∧
    (∀ s, (∀ kv ∈ scanCaptures s.data,
        kv.1 ∉ (["Signal", "MCS", "CH", "FlightTime", "SBat", "GBat", "Delay",
          "Bitrate", "Distance", "AirTemp", "GndTemp", "STYMode"] : List String)) →
      SrtFrameData.fromStr s = Except.ok SrtFrameData.empty) := by
  constructor
  · intro s
    exact ⟨_, rfl⟩
  · intro s h
    unfold SrtFrameData.fromStr
    rw [foldl_applyCapture_unrecognized (scanCaptures s.data) SrtFrameData.empty h]

/-- Witness for C10 at a line whose only capture has an unrecognized key. -/
theorem generic_parser_total_witness :
    SrtFrameData.fromStr "Foo:1" = Except.ok SrtFrameData.empty :=
  generic_parser_total.2 "Foo:1" (by decide)

/-- Counterexample for C3: a cue whose text fails the debug and Ascent
schemas and contains nothing the generic scan recognizes still produces a
frame whose primary record is PRESENT (with every field absent), not an
absent record as the claim states. -/
theorem srt_open_record_present_cex :
    AscentSrtFrameData.parse "garbage" = none ∧
    SrtDebugFrameData.parse "garbage" = none ∧
    SrtFrameData.fromStr "garbage" = Except.ok SrtFrameData.empty ∧
    (SrtFile.openPure [⟨0, 1, "garbage"⟩]).map (fun r => r.frames.map (·.data)) =
      some [some SrtFrameData.empty] ∧
    (SrtFile.openPure [⟨0, 1, "garbage"⟩]).map (fun r => r.frames.map (·.data)) ≠
      some [none] := by
  refine ⟨by decide, by decide, rfl, by decide, by decide⟩

/-- C3 (amended): opening a telemetry file never aborts on parse failures —
every cue yields a frame and a cue matching no schema yields a frame whose
primary record is present with every field absent (not an absent record);
a file with zero recognized cues loads successfully with no capability flag
set; and the loaded duration is exactly the last cue's end time, with no
padding. -/
theorem srt_open_never_aborts (subs : List Subtitle) (h : subs ≠ []) :
    ∃ r, SrtFile.openPure subs = some r ∧
      r.frames = subs.map cueToFrame ∧
      (∀ fr ∈ r.frames, ∃ d, fr.data = some d) ∧
      some r.duration = subs.getLast?.map Subtitle.end_time ∧
      ((∀ fr ∈ r.frames, fr.data = some SrtFrameData.empty ∧ fr.debug_data = none) →
        r.has_signal = false ∧ r.has_channel = false ∧ r.has_flight_time = false ∧
        r.has_sky_bat = false ∧ r.has_ground_bat = false ∧ r.has_latency = false ∧
        r.has_bitrate = false ∧ r.has_distance = false ∧ r.has_hz = false ∧
        r.has_sp = false ∧ r.has_gp = false ∧ r.has_air_temp = false ∧
        r.has_gnd_temp = false ∧ r.has_sty_mode = false ∧ r.has_debug = false) := by
  have hne : subs.map cueToFrame ≠ [] := by
    intro he
    exact h (List.map_eq_nil.mp he)
  have hlast := List.getLast?_eq_getLast_of_ne_nil hne
  simp only [SrtFile.openPure]
  rw [hlast]
  refine ⟨_, rfl, rfl, ?_, ?_, ?_⟩
  · intro fr hfr
    simp only [List.mem_map] at hfr
    obtain ⟨cue, _, rfl⟩ := hfr
    have hs := parseLineData_isSome cue.text
    exact ⟨(parseLineData cue.text).get hs, by simp [cueToFrame, Option.some_get]⟩
  · show some ((subs.map cueToFrame).getLast hne).end_time_secs =
      subs.getLast?.map Subtitle.end_time
    rw [List.getLast_map, List.getLast?_eq_getLast_of_ne_nil h]
    rfl
  · intro hall
    have hfp : ∀ sel : SrtFrameData → Bool, sel SrtFrameData.empty = false →
        (subs.map cueToFrame).any (framePresent sel) = false := by
      intro sel hsel
      rw [List.any_eq_false]
      intro fr hfr
      obtain ⟨hd, _⟩ := hall fr hfr
      simp [framePresent, hd, hsel]
    have hdbg : (subs.map cueToFrame).any (fun fr => fr.debug_data.isSome) = false := by
      rw [List.any_eq_false]
      intro fr hfr
      obtain ⟨_, hd2⟩ := hall fr hfr
      simp [hd2]
    exact ⟨hfp (fun d => d.signal.isSome) rfl, hfp (fun d => d.channel.isSome) rfl,
      hfp (fun d => d.flight_time.isSome) rfl, hfp (fun d => d.sky_bat.isSome) rfl,
      hfp (fun d => d.ground_bat.isSome) rfl, hfp (fun d => d.latency.isSome) rfl,
      hfp (fun d => d.bitrate_mbps.isSome) rfl, hfp (fun d => d.distance.isSome) rfl,
      hfp (fun d => d.hz.isSome) rfl, hfp (fun d => d.sp.isSome) rfl,
      hfp (fun d => d.gp.isSome) rfl, hfp (fun d => d.air_temp.isSome) rfl,
      hfp (fun d => d.gnd_temp.isSome) rfl, hfp (fun d => d.sty_mode.isSome) rfl, hdbg⟩

/-- Witness for C3 (amended) at a one-cue file whose text matches nothing. -/
theorem srt_open_never_aborts_witness :
    ∃ r, SrtFile.openPure [⟨0, 1, "garbage"⟩] = some r ∧
      r.frames = ([⟨0, 1, "garbage"⟩] : List Subtitle).map cueToFrame ∧
      (∀ fr ∈ r.frames, ∃ d, fr.data = some d) ∧
      some r.duration = ([⟨0, 1, "garbage"⟩] : List Subtitle).getLast?.map Subtitle.end_time ∧
      ((∀ fr ∈ r.frames, fr.data = some SrtFrameData.empty ∧ fr.debug_data = none) →
        r.has_signal = false ∧ r.has_channel = false ∧ r.has_flight_time = false ∧
        r.has_sky_bat = false ∧ r.has_ground_bat = false ∧ r.has_latency = false ∧
        r.has_bitrate = false ∧ r.has_distance = false ∧ r.has_hz = false ∧
        r.has_sp = false ∧ r.has_gp = false ∧ r.has_air_temp = false ∧
        r.has_gnd_temp = false ∧ r.has_sty_mode = false ∧ r.has_debug = false) :=
  srt_open_never_aborts [⟨0, 1, "garbage"⟩] (by decide)

/-- Bits shifted past `n` cannot collide with a value below `2 ^ n`, so the
bitwise or is addition. -/
theorem shiftLeft_lor_eq_add (n : Nat) :
    ∀ (x b : Nat), b < 2 ^ n → (x <<< n) ||| b = x * 2 ^ n + b := by
  induction n with
  | zero =>
    intro x b hb
    have h1 : (2 : ℕ) ^ 0 = 1 := rfl
    have hb0 : b = 0 := by omega
    subst hb0
    simp [Nat.shiftLeft_eq]
  | succ n ih =>
    intro x b hb
    have hsplit : Nat.bit b.bodd b.div2 = b := Nat.bit_decomp b
    have hx : x <<< (n + 1) = Nat.bit false (x <<< n) := by
      rw [Nat.bit_val, Nat.shiftLeft_eq, Nat.shiftLeft_eq]
      have : (2 : ℕ) ^ (n + 1) = 2 ^ n * 2 := by ring
      rw [this]
      simp [Bool.toNat]
      ring
    have hd : b.div2 < 2 ^ n := by
      have h2 : b.div2 = b / 2 := Nat.div2_val b
      have hp : (2 : ℕ) ^ (n + 1) = 2 * 2 ^ n := by ring
      omega
    have key : (x <<< (n + 1)) ||| b = Nat.bit b.bodd (x * 2 ^ n + b.div2) := by
      conv_lhs => rw [← hsplit, hx]
      rw [Nat.lor_bit, ih _ _ hd]
      simp [Bool.false_or]
    rw [key, Nat.bit_val]
    have hb2 := Nat.bodd_add_div2 b
    have hxp : x * 2 ^ (n + 1) = 2 * (x * 2 ^ n) := by ring
    rw [hxp]
    omega

/-- The glyph-index reconstruction really packs the attribute's low two bits
above the eight glyph-byte bits: a 10-bit index. -/
theorem glyph_index_decomp (attr b : Nat) (hb : b < 256) :
    ((attr &&& 0x03) <<< 8) ||| b = attr % 4 * 256 + b ∧
    ((attr &&& 0x03) <<< 8) ||| b < 1024 := by
  have h3 : attr &&& 3 = attr % 4 := by
    have h := Nat.and_pow_two_sub_one_eq_mod attr 2
    norm_num at h
    exact h
  have hb8 : b < 2 ^ 8 := by norm_num; omega
  have hmain : ((attr &&& 0x03) <<< 8) ||| b = attr % 4 * 256 + b := by
    rw [h3, shiftLeft_lor_eq_add 8 (attr % 4) b hb8]
    norm_num
  refine ⟨hmain, ?_⟩
  rw [hmain]
  have : attr % 4 < 4 := Nat.mod_lt _ (by norm_num)
  omega

/-- The byte-drop counter only matters modulo 3. -/
theorem dropEveryThirdAux_congr :
    ∀ (l : List Nat) (i j : Nat), i % 3 = j % 3 →
      dropEveryThirdAux i l = dropEveryThirdAux j l := by
  intro l
  induction l with
  | nil => intro i j _; rfl
  | cons b t ih =>
    intro i j h
    have h1 : (i + 1) % 3 = (j + 1) % 3 := by omega
    simp only [dropEveryThirdAux]
    rw [h1]
    by_cases hc : (j + 1) % 3 ≠ 0
    · rw [if_pos hc, if_pos hc, ih (i + 1) (j + 1) h1]
    · rw [if_neg hc, if_neg hc]
      exact ih (i + 1) (j + 1) h1

/-- Closed form of the inner glyph loop: glyph `j` (as long as its byte is
in range) sits at row `row`, column `col.saturating_add (i + j)` and index
`((attr & 0x03) << 8) | data[offset + j]`. -/
theorem mspGlyphLoop_closed (data : List Nat) (row col attr : Nat) :
    ∀ (n offset i : Nat),
      mspGlyphLoop data row col attr n offset i =
        (List.range (min n (data.length - offset))).map fun j =>
          (row, min (col + (i + j) % 256) 255,
            ((attr &&& 0x03) <<< 8) ||| data.getD (offset + j) 0) := by
  intro n
  induction n with
  | zero => intro offset i; simp [mspGlyphLoop]
  | succ n ih =>
    intro offset i
    simp only [mspGlyphLoop]
    by_cases hoff : offset ≥ data.length
    · rw [if_pos hoff]
      have h0 : data.length - offset = 0 := by omega
      simp [h0]
    · rw [if_neg hoff]
      have hsub : data.length - offset = (data.length - (offset + 1)) + 1 := by omega
      rw [hsub, Nat.succ_min_succ, List.range_succ_eq_map, List.map_cons, List.map_map]
      congr 1
      rw [ih (offset + 1) (i + 1)]
      apply List.map_congr_left
      intro j _
      simp only [Function.comp_apply, Nat.succ_eq_add_one]
      rw [show i + 1 + j = i + (j + 1) from by omega,
        show offset + 1 + j = offset + (j + 1) from by omega]

/-- Counterexample for C2: a command whose column byte is 0xFF and which
carries two glyph bytes produces two glyphs at the SAME column 255
(`saturating_add`), not at successive columns 255, 256 as the claim's
"successive columns" universally states. -/
theorem msp_successive_columns_cex :
    parse_msp_payload "0100FF0000FF0000FF0000FF0006FF0000FF01FFFF0205FF06" =
      some [(1, 255, 0x205), (1, 255, 0x206)] ∧
    parse_msp_payload "0100FF0000FF0000FF0000FF0006FF0000FF01FFFF0205FF06" ≠
      some [(1, 255, 0x205), (1, 256, 0x206)] :=
  ⟨by decide, by decide⟩

/-- C2 (amended): the MSP-payload decoder strips per-line address prefixes,
discards non-hex characters, hex-decodes, drops every third byte, reads
byte 0 as a command count and per command a payload-length byte, 2 skipped
bytes, row, column and attribute bytes followed by payload-length − 4 glyph
bytes; each glyph's 10-bit index is `((attribute & 0x03) << 8) | glyph_byte`
(in particular attribute low bits 0b10 with glyph byte 0x05 gives 0x205),
and successive glyph bytes of one command occupy successive columns starting
at the command's column, SATURATING at the byte maximum 255. -/
theorem msp_payload_structure :
    (∀ (data : List Nat) (row col attr n offset i : Nat),
      mspGlyphLoop data row col attr n offset i =
        (List.range (min n (data.length - offset))).map fun j =>
          (row, min (col + (i + j) % 256) 255,
            ((attr &&& 0x03) <<< 8) ||| data.getD (offset + j) 0)) ∧
    (dropEveryThird [] = [] ∧ (∀ a : Nat, dropEveryThird [a] = [a]) ∧
      (∀ a b : Nat, dropEveryThird [a, b] = [a, b]) ∧
      (∀ (a b c : Nat) (t : List Nat),
        dropEveryThird (a :: b :: c :: t) = a :: b :: dropEveryThird t)) ∧
    (∀ attr b, b < 256 →
      ((attr &&& 0x03) <<< 8) ||| b = attr % 4 * 256 + b ∧
      ((attr &&& 0x03) <<< 8) ||| b < 1024) ∧
    ((0x02 &&& 0x03) <<< 8) ||| 0x05 = 0x205 ∧
    parse_msp_payload "0100FF0000FF0000FF0000FF0006FF0000FF0107FF0205FF06" =
      some [(1, 7, 0x205), (1, 8, 0x206)] ∧
    parse_msp_payload
        "00000000: 01 00 FF 00 00 FF 00 00 FF 00 00 FF 00 06\n00000010: FF 00 00 FF 01 07 FF 02 05 FF 06" =
      some [(1, 7, 0x205), (1, 8, 0x206)] := by
  refine ⟨fun data row col attr n offset i => mspGlyphLoop_closed data row col attr n offset i,
    ⟨rfl, fun a => by simp [dropEveryThird, dropEveryThirdAux],
      fun a b => by simp [dropEveryThird, dropEveryThirdAux], ?_⟩,
    glyph_index_decomp, by decide, by decide, by decide⟩
  intro a b c t
  show dropEveryThirdAux 0 (a :: b :: c :: t) = a :: b :: dropEveryThirdAux 0 t
  simp only [dropEveryThirdAux]
  norm_num
  exact dropEveryThirdAux_congr t 3 0 (by norm_num)

/-- Witness for C2 (amended): the index-decomposition conjunct at the
documented 0b10 / 0x05 instance. -/
theorem msp_payload_structure_witness :
    ((2 &&& 0x03) <<< 8) ||| 5 = 2 % 4 * 256 + 5 ∧ ((2 &&& 0x03) <<< 8) ||| 5 < 1024 :=
  msp_payload_structure.2.2.1 2 5 (by decide)

/-- A frame produced from one payload entry is non-empty and every glyph
passed the filter. -/
theorem entryToFrame_invariant (e : Dec10 × String) (fr : Frame)
    (h : entryToFrame e = some fr) :
    fr.glyphs ≠ [] ∧ ∀ g ∈ fr.glyphs, g.grid_position.x < GRID_WIDTH ∧
      g.grid_position.y < GRID_HEIGHT ∧ g.index ≠ 0x00 ∧ g.index ≠ 0x20 := by
  unfold entryToFrame at h
  cases hp : parse_msp_payload e.2 with
  | none => rw [hp] at h; cases h
  | some raw =>
    rw [hp] at h
    simp only [] at h
    split at h
    · cases h
    · rename_i hne
      cases h
      constructor
      · intro he
        exact hne (by rw [List.isEmpty_iff]; exact he)
      · intro g hg
        simp only [List.mem_map] at hg
        obtain ⟨t, ht, rfl⟩ := hg
        have hf := List.of_mem_filter ht
        simp only [Bool.and_eq_true, decide_eq_true_eq, bne_iff_ne] at hf
        exact ⟨hf.1.1.1, hf.1.1.2, hf.1.2, hf.2⟩

/-- Every frame assembled from the entry list satisfies the glyph
invariant. -/
theorem framesOfEntries_invariant (entries : List (Dec10 × String)) (fr : Frame)
    (h : fr ∈ framesOfEntries entries) :
    fr.glyphs ≠ [] ∧ ∀ g ∈ fr.glyphs, g.grid_position.x < GRID_WIDTH ∧
      g.grid_position.y < GRID_HEIGHT ∧ g.index ≠ 0x00 ∧ g.index ≠ 0x20 := by
  unfold framesOfEntries at h
  obtain ⟨e, _, he⟩ := List.mem_filterMap.mp h
  exact entryToFrame_invariant e fr he

/-- The extraction either reports no embedded OSD or returns exactly the
non-empty assembled frame list. -/
theorem extract_shape (filename : String) (quick full : List (Dec10 × String)) :
    (extract_osd_from_video filename quick full).1 = none ∨
    ((extract_osd_from_video filename quick full).1.map OsdFileData.frames =
        some (framesOfEntries full) ∧ framesOfEntries full ≠ []) := by
  unfold extract_osd_from_video
  by_cases h1 : (containsSub "ascent".data (toLowerStr filename).data ||
      containsSub "avatar".data (toLowerStr filename).data) = true
  · left; simp [h1]
  · by_cases h2 : quick.isEmpty
    · left; simp [h1, h2]
    · by_cases h3 : full.isEmpty
      · left; simp [h1, h2, h3]
      · by_cases h4 : (framesOfEntries full).isEmpty
        · left; simp [h1, h2, h3, h4]
        · right
          constructor
          · simp [h1, h2, h3, h4]
          · intro he
            rw [he] at h4
            exact h4 rfl

/-- C6: every OSD file the embedded-OSD extractor returns satisfies the
glyph invariant — each retained glyph has column < 53, row < 20 and index
∉ {0, 0x20} — every returned frame has at least one glyph, and when no frame
survives the extractor returns `none` rather than an empty sequence. -/
theorem extract_glyph_invariant (filename : String) (quick full : List (Dec10 × String)) :
    (framesOfEntries full = [] → (extract_osd_from_video filename quick full).1 = none) ∧
    (∀ l, (extract_osd_from_video filename quick full).1.map OsdFileData.frames = some l →
      l = framesOfEntries full ∧ l ≠ []) ∧
    (∀ fr, fr ∈ ((extract_osd_from_video filename quick full).1.map
        OsdFileData.frames).getD [] →
      fr.glyphs ≠ [] ∧ ∀ g ∈ fr.glyphs, g.grid_position.x < 53 ∧
        g.grid_position.y < 20 ∧ g.index ≠ 0x00 ∧ g.index ≠ 0x20) := by
  refine ⟨?_, ?_, ?_⟩
  · intro hfr
    rcases extract_shape filename quick full with h | ⟨_, hne⟩
    · exact h
    · exact absurd hfr hne
  · intro l hl
    rcases extract_shape filename quick full with h | ⟨hsome, hne⟩
    · rw [h] at hl; cases hl
    · rw [hsome] at hl
      cases hl
      exact ⟨rfl, hne⟩
  · intro fr hfr
    rcases extract_shape filename quick full with h | ⟨hsome, _⟩
    · rw [h] at hfr; cases hfr
    · rw [hsome] at hfr
      simp only [Option.getD_some] at hfr
      exact framesOfEntries_invariant full fr hfr

/-- Witness for C6: the empty-result branch at an unparsable payload and the
invariant at a concrete extracted frame. -/
theorem extract_glyph_invariant_witness :
    (extract_osd_from_video "x.mp4" [(⟨0, 0⟩, "01")] [(⟨0, 0⟩, "zz")]).1 = none ∧
    ((⟨0, [⟨0x205, ⟨7, 1⟩⟩, ⟨0x206, ⟨8, 1⟩⟩]⟩ : Frame).glyphs ≠ [] ∧
      ∀ g ∈ (⟨0, [⟨0x205, ⟨7, 1⟩⟩, ⟨0x206, ⟨8, 1⟩⟩]⟩ : Frame).glyphs,
        g.grid_position.x < 53 ∧ g.grid_position.y < 20 ∧
          g.index ≠ 0x00 ∧ g.index ≠ 0x20) ∧
    (∀ l, (extract_osd_from_video "x.mp4" [(⟨0, 0⟩, "01")]
        [(⟨0, 0⟩, "0100FF0000FF0000FF0000FF0006FF0000FF0107FF0205FF06")]).1.map
          OsdFileData.frames = some l → l ≠ []) :=
  ⟨(extract_glyph_invariant "x.mp4" [(⟨0, 0⟩, "01")] [(⟨0, 0⟩, "zz")]).1 (by decide),
   (extract_glyph_invariant "x.mp4" [(⟨0, 0⟩, "01")]
      [(⟨0, 0⟩, "0100FF0000FF0000FF0000FF0006FF0000FF0107FF0205FF06")]).2.2
      ⟨0, [⟨0x205, ⟨7, 1⟩⟩, ⟨0x206, ⟨8, 1⟩⟩]⟩ (by decide),
   fun l hl => ((extract_glyph_invariant "x.mp4" [(⟨0, 0⟩, "01")]
      [(⟨0, 0⟩, "0100FF0000FF0000FF0000FF0006FF0000FF0107FF0205FF06")]).2.1 l hl).2⟩

/-- Cache lookup after a front insertion. -/
theorem cacheLookup_cons (k : Nat) (v : RgbaImage) (c : List (Nat × RgbaImage)) (i : Nat) :
    cacheLookup ((k, v) :: c) i = if k = i then some v else cacheLookup c i := rfl

/-- A pixel outside the placed region of an `overlay` call is untouched. -/
theorem overlayImg_pix_outside (bottom top : RgbaImage) (ox oy : Int) (x y : Nat)
    (h : ¬(ox ≤ (x : Int) ∧ (x : Int) < ox + top.width ∧
      oy ≤ (y : Int) ∧ (y : Int) < oy + top.height)) :
    (overlayImg bottom top ox oy).pix x y = bottom.pix x y := by
  unfold overlayImg
  simp only []
  rw [if_neg h]

/-- A skipped glyph (index 0 or masked) leaves the cached state untouched. -/
theorem cachedGlyphStep_skip (font : FontFile) (osd_options : OsdOptions)
    (base : CharacterSize) (sw sh : Nat) (offset : Int × Int) (st : CachedState)
    (g : Glyph) (h : (decide (g.index = 0) || osd_options.get_mask g.grid_position) = true) :
    cachedGlyphStep font osd_options base sw sh offset st g = st := by
  unfold cachedGlyphStep
  rw [if_pos h]

/-- A cache hit composites the cached image; cache and fetch log are
untouched. -/
theorem cachedGlyphStep_hit (font : FontFile) (osd_options : OsdOptions)
    (base : CharacterSize) (sw sh : Nat) (offset : Int × Int) (st : CachedState)
    (g : Glyph) (im : RgbaImage)
    (h : ¬((decide (g.index = 0) || osd_options.get_mask g.grid_position) = true))
    (hc : cacheLookup st.cache g.index = some im) :
    cachedGlyphStep font osd_options base sw sh offset st g =
      { image := overlayImg st.image im (glyphPx osd_options offset sw g)
          (glyphPy osd_options offset sh g)
        cache := st.cache
        fetched := st.fetched
        composed := st.composed ++ [⟨g.index, g.grid_position,
          glyphPx osd_options offset sw g, glyphPy osd_options offset sh g,
          im.width, im.height⟩] } := by
  unfold cachedGlyphStep
  rw [if_neg h, hc]

/-- A cache miss fetches the scaled glyph (a transparent placeholder when
the font lacks it), stores it, logs the fetch, and composites it. -/
theorem cachedGlyphStep_miss (font : FontFile) (osd_options : OsdOptions)
    (base : CharacterSize) (sw sh : Nat) (offset : Int × Int) (st : CachedState)
    (g : Glyph)
    (h : ¬((decide (g.index = 0) || osd_options.get_mask g.grid_position) = true))
    (hc : cacheLookup st.cache g.index = none) :
    cachedGlyphStep font osd_options base sw sh offset st g =
      { image := overlayImg st.image
          ((get_scaled_glyph font g.index base sw sh).getD (RgbaImage.new sw sh))
          (glyphPx osd_options offset sw g) (glyphPy osd_options offset sh g)
        cache := (g.index,
          (get_scaled_glyph font g.index base sw sh).getD (RgbaImage.new sw sh)) :: st.cache
        fetched := st.fetched ++ [g.index]
        composed := st.composed ++ [⟨g.index, g.grid_position,
          glyphPx osd_options offset sw g, glyphPy osd_options offset sh g,
          ((get_scaled_glyph font g.index base sw sh).getD (RgbaImage.new sw sh)).width,
          ((get_scaled_glyph font g.index base sw sh).getD (RgbaImage.new sw sh)).height⟩] } := by
  unfold cachedGlyphStep
  rw [if_neg h, hc]

/-- The composition log only grows along the cached fold. -/
theorem cached_fold_composed_mono (font : FontFile) (osd_options : OsdOptions)
    (base : CharacterSize) (sw sh : Nat) (offset : Int × Int) :
    ∀ (gs : List Glyph) (st : CachedState) (e : CompEntry), e ∈ st.composed →
      e ∈ (gs.foldl (cachedGlyphStep font osd_options base sw sh offset) st).composed := by
  intro gs
  induction gs with
  | nil => intro st e he; exact he
  | cons g t ih =>
    intro st e he
    rw [List.foldl_cons]
    by_cases h : (decide (g.index = 0) || osd_options.get_mask g.grid_position) = true
    · rw [cachedGlyphStep_skip font osd_options base sw sh offset st g h]
      exact ih st e he
    · cases hc : cacheLookup st.cache g.index with
      | some im =>
        rw [cachedGlyphStep_hit font osd_options base sw sh offset st g im h hc]
        exact ih _ e (List.mem_append_left _ he)
      | none =>
        rw [cachedGlyphStep_miss font osd_options base sw sh offset st g h hc]
        exact ih _ e (List.mem_append_left _ he)

/-- Pixels outside every logged composition region are untouched by the
cached fold. -/
theorem cached_fold_pix (font : FontFile) (osd_options : OsdOptions)
    (base : CharacterSize) (sw sh : Nat) (offset : Int × Int) :
    ∀ (gs : List Glyph) (st : CachedState) (x y : Nat),
      (∀ e ∈ (gs.foldl (cachedGlyphStep font osd_options base sw sh offset) st).composed,
        ¬ e.inRegion x y) →
      (gs.foldl (cachedGlyphStep font osd_options base sw sh offset) st).image.pix x y =
        st.image.pix x y := by
  intro gs
  induction gs with
  | nil => intro st x y _; rfl
  | cons g t ih =>
    intro st x y hout
    rw [List.foldl_cons] at hout ⊢
    by_cases h : (decide (g.index = 0) || osd_options.get_mask g.grid_position) = true
    · rw [cachedGlyphStep_skip font osd_options base sw sh offset st g h] at hout ⊢
      exact ih st x y hout
    · cases hc : cacheLookup st.cache g.index with
      | some im =>
        rw [cachedGlyphStep_hit font osd_options base sw sh offset st g im h hc] at hout ⊢
        set st2 : CachedState :=
          { image := overlayImg st.image im (glyphPx osd_options offset sw g)
              (glyphPy osd_options offset sh g)
            cache := st.cache
            fetched := st.fetched
            composed := st.composed ++ [⟨g.index, g.grid_position,
              glyphPx osd_options offset sw g, glyphPy osd_options offset sh g,
              im.width, im.height⟩] } with hst2
        have hmem : (⟨g.index, g.grid_position, glyphPx osd_options offset sw g,
            glyphPy osd_options offset sh g, im.width, im.height⟩ : CompEntry) ∈
            (t.foldl (cachedGlyphStep font osd_options base sw sh offset) st2).composed := by
          apply cached_fold_composed_mono
          rw [hst2]
          simp
        have hentry := hout _ hmem
        rw [ih st2 x y hout]
        rw [hst2]
        simp only []
        apply overlayImg_pix_outside
        intro hreg
        exact hentry hreg
      | none =>
        rw [cachedGlyphStep_miss font osd_options base sw sh offset st g h hc] at hout ⊢
        set im2 : RgbaImage :=
          (get_scaled_glyph font g.index base sw sh).getD (RgbaImage.new sw sh) with him
        set st2 : CachedState :=
          { image := overlayImg st.image im2 (glyphPx osd_options offset sw g)
              (glyphPy osd_options offset sh g)
            cache := (g.index, im2) :: st.cache
            fetched := st.fetched ++ [g.index]
            composed := st.composed ++ [⟨g.index, g.grid_position,
              glyphPx osd_options offset sw g, glyphPy osd_options offset sh g,
              im2.width, im2.height⟩] } with hst2
        have hmem : (⟨g.index, g.grid_position, glyphPx osd_options offset sw g,
            glyphPy osd_options offset sh g, im2.width, im2.height⟩ : CompEntry) ∈
            (t.foldl (cachedGlyphStep font osd_options base sw sh offset) st2).composed := by
          apply cached_fold_composed_mono
          rw [hst2]
          simp
        have hentry := hout _ hmem
        rw [ih st2 x y hout]
        rw [hst2]
        simp only []
        apply overlayImg_pix_outside
        intro hreg
        exact hentry hreg

/-- Invariant of the cached glyph fold: the fetch log stays duplicate-free,
every fetched index ends up cached, existing cache entries are never
overwritten, fetches happen only on cache misses, a fetched glyph the font
lacks is cached as the fully transparent image of the scaled size, and the
composition log records exactly the unmasked non-zero glyphs, in order. -/
theorem cachedGlyphStep_fold_inv (font : FontFile) (osd_options : OsdOptions)
    (base : CharacterSize) (sw sh : Nat) (offset : Int × Int) :
    ∀ (gs : List Glyph) (st : CachedState),
      st.fetched.Nodup →
      (∀ i ∈ st.fetched, cacheLookup st.cache i ≠ none) →
      (gs.foldl (cachedGlyphStep font osd_options base sw sh offset) st).fetched.Nodup ∧
      (∀ i ∈ (gs.foldl (cachedGlyphStep font osd_options base sw sh offset) st).fetched,
        cacheLookup
          (gs.foldl (cachedGlyphStep font osd_options base sw sh offset) st).cache i ≠
          none) ∧
      (∀ i, cacheLookup st.cache i ≠ none →
        cacheLookup
          (gs.foldl (cachedGlyphStep font osd_options base sw sh offset) st).cache i =
          cacheLookup st.cache i) ∧
      (∀ i ∈ (gs.foldl (cachedGlyphStep font osd_options base sw sh offset) st).fetched,
        i ∈ st.fetched ∨ cacheLookup st.cache i = none) ∧
      (∀ i ∈ (gs.foldl (cachedGlyphStep font osd_options base sw sh offset) st).fetched,
        i ∉ st.fetched → font.getCharacter i = none →
        cacheLookup
          (gs.foldl (cachedGlyphStep font osd_options base sw sh offset) st).cache i =
          some (RgbaImage.new sw sh)) ∧
      ((gs.foldl (cachedGlyphStep font osd_options base sw sh offset) st).composed.map
          (fun e => (e.index, e.pos)) =
        st.composed.map (fun e => (e.index, e.pos)) ++
          (gs.filter fun g =>
            !(decide (g.index = 0) || osd_options.get_mask g.grid_position)).map
            (fun g => (g.index, g.grid_position))) := by
  intro gs
  induction gs with
  | nil =>
    intro st hnd hmem
    exact ⟨hnd, hmem, fun i _ => rfl, fun i hi => Or.inl hi,
      fun i hi hni _ => absurd hi hni, by simp⟩
  | cons g t ih =>
    intro st hnd hmem
    rw [List.foldl_cons]
    by_cases h : (decide (g.index = 0) || osd_options.get_mask g.grid_position) = true
    · rw [cachedGlyphStep_skip font osd_options base sw sh offset st g h]
      obtain ⟨c1, c2, c3, c4, c5, c6⟩ := ih st hnd hmem
      refine ⟨c1, c2, c3, c4, c5, ?_⟩
      rw [c6]
      have hp : (!(decide (g.index = 0) || osd_options.get_mask g.grid_position)) = false := by
        rw [h]; rfl
      rw [List.filter_cons, hp]
      simp
    · cases hc : cacheLookup st.cache g.index with
      | some im =>
        rw [cachedGlyphStep_hit font osd_options base sw sh offset st g im h hc]
        set st2 : CachedState :=
          { image := overlayImg st.image im (glyphPx osd_options offset sw g)
              (glyphPy osd_options offset sh g)
            cache := st.cache
            fetched := st.fetched
            composed := st.composed ++ [⟨g.index, g.grid_position,
              glyphPx osd_options offset sw g, glyphPy osd_options offset sh g,
              im.width, im.height⟩] } with hst2
        obtain ⟨c1, c2, c3, c4, c5, c6⟩ := ih st2 hnd hmem
        refine ⟨c1, c2, c3, c4, c5, ?_⟩
        rw [c6, hst2]
        have hp : (!(decide (g.index = 0) || osd_options.get_mask g.grid_position)) = true := by
          rw [Bool.not_eq_true']
          exact Bool.not_eq_true _ ▸ h
        rw [List.filter_cons, hp]
        simp
      | none =>
        have hnotin : g.index ∉ st.fetched := fun hin => (hmem _ hin) hc
        rw [cachedGlyphStep_miss font osd_options base sw sh offset st g h hc]
        set st2 : CachedState :=
          { image := overlayImg st.image
              ((get_scaled_glyph font g.index base sw sh).getD (RgbaImage.new sw sh))
              (glyphPx osd_options offset sw g) (glyphPy osd_options offset sh g)
            cache := (g.index,
              (get_scaled_glyph font g.index base sw sh).getD
                (RgbaImage.new sw sh)) :: st.cache
            fetched := st.fetched ++ [g.index]
            composed := st.composed ++ [⟨g.index, g.grid_position,
              glyphPx osd_options offset sw g, glyphPy osd_options offset sh g,
              ((get_scaled_glyph font g.index base sw sh).getD (RgbaImage.new sw sh)).width,
              ((get_scaled_glyph font g.index base sw sh).getD
                (RgbaImage.new sw sh)).height⟩] } with hst2
        have hnd2 : (st.fetched ++ [g.index]).Nodup := by
          rw [List.nodup_append]
          exact ⟨hnd, List.nodup_singleton _, by
            intro a ha hb
            simp only [List.mem_singleton] at hb
            subst hb
            exact hnotin ha⟩
        have hmem2 : ∀ i ∈ st.fetched ++ [g.index],
            cacheLookup ((g.index,
              (get_scaled_glyph font g.index base sw sh).getD (RgbaImage.new sw sh)) ::
                st.cache) i ≠ none := by
          intro i hi
          rw [cacheLookup_cons]
          by_cases he : g.index = i
          · rw [if_pos he]; exact Option.some_ne_none _
          · rw [if_neg he]
            rcases List.mem_append.mp hi with hi2 | hi2
            · exact hmem i hi2
            · simp only [List.mem_singleton] at hi2
              exact absurd hi2.symm he
        obtain ⟨c1, c2, c3, c4, c5, c6⟩ := ih st2 hnd2 hmem2
        refine ⟨c1, c2, ?_, ?_, ?_, ?_⟩
        · intro i hne
          have hneq : g.index ≠ i := by
            intro he; subst he; exact hne hc
          have hmid : cacheLookup ((g.index,
              (get_scaled_glyph font g.index base sw sh).getD (RgbaImage.new sw sh)) ::
                st.cache) i = cacheLookup st.cache i := by
            rw [cacheLookup_cons, if_neg hneq]
          rw [c3 i (by rw [hmid]; exact hne)]
          exact hmid
        · intro i hit
          rcases c4 i hit with hin | hnone
          · rcases List.mem_append.mp hin with hin2 | hin2
            · exact Or.inl hin2
            · simp only [List.mem_singleton] at hin2
              subst hin2
              exact Or.inr hc
          · rw [cacheLookup_cons] at hnone
            by_cases he : g.index = i
            · rw [if_pos he] at hnone; cases hnone
            · rw [if_neg he] at hnone
              exact Or.inr hnone
        · intro i hit hni hfont
          by_cases he : i = g.index
          · have hfont2 : font.getCharacter g.index = none := he ▸ hfont
            have him : (get_scaled_glyph font g.index base sw sh).getD (RgbaImage.new sw sh) =
                RgbaImage.new sw sh := by
              unfold get_scaled_glyph
              rw [hfont2]
              rfl
            have hlook : cacheLookup st2.cache i ≠ none := by
              rw [hst2]
              show cacheLookup ((g.index,
                (get_scaled_glyph font g.index base sw sh).getD (RgbaImage.new sw sh)) ::
                  st.cache) i ≠ none
              rw [cacheLookup_cons, if_pos he.symm]
              exact Option.some_ne_none _
            rw [c3 i hlook]
            rw [hst2]
            show cacheLookup ((g.index,
              (get_scaled_glyph font g.index base sw sh).getD (RgbaImage.new sw sh)) ::
                st.cache) i = some (RgbaImage.new sw sh)
            rw [cacheLookup_cons, if_pos he.symm, him]
          · apply c5 i hit ?_ hfont
            intro hin
            rcases List.mem_append.mp hin with hin2 | hin2
            · exact hni hin2
            · simp only [List.mem_singleton] at hin2
              exact he hin2
        · rw [c6, hst2]
          have hp : (!(decide (g.index = 0) ||
              osd_options.get_mask g.grid_position)) = true := by
            rw [Bool.not_eq_true']
            exact Bool.not_eq_true _ ▸ h
          rw [List.filter_cons, hp]
          simp

/-- Facts about one `overlay_osd_cached` call: each call's fetch log is
duplicate-free, fetches happen only on cache misses, fetched indices end up
cached, existing cache entries are preserved, a fetched glyph the font lacks
is cached as a transparent image of the scaled size, and every unmasked
non-zero glyph is composited (in order), font or no font. -/
theorem overlay_osd_cached_facts (image : RgbaImage) (osd_frame : Frame) (font : FontFile)
    (osd_options : OsdOptions) (offset : Int × Int) (glyph_cache : List (Nat × RgbaImage)) :
    (overlay_osd_cached image osd_frame font osd_options offset glyph_cache).fetched.Nodup ∧
    (∀ i ∈ (overlay_osd_cached image osd_frame font osd_options offset glyph_cache).fetched,
      cacheLookup glyph_cache i = none ∧
      cacheLookup
        (overlay_osd_cached image osd_frame font osd_options offset glyph_cache).cache i ≠
        none) ∧
    (∀ i, cacheLookup glyph_cache i ≠ none →
      cacheLookup
        (overlay_osd_cached image osd_frame font osd_options offset glyph_cache).cache i =
        cacheLookup glyph_cache i) ∧
    (∀ i ∈ (overlay_osd_cached image osd_frame font osd_options offset glyph_cache).fetched,
      font.getCharacter i = none →
      cacheLookup
        (overlay_osd_cached image osd_frame font osd_options offset glyph_cache).cache i =
        some (RgbaImage.new
          (roundToU32 ((Dec10.ofNat (get_character_size image.width image.height).width).mul
            osd_options.scale.div100))
          (roundToU32 ((Dec10.ofNat (get_character_size image.width image.height).height).mul
            osd_options.scale.div100)))) ∧
    ((overlay_osd_cached image osd_frame font osd_options offset glyph_cache).composed.map
        (fun e => (e.index, e.pos)) =
      (osd_frame.glyphs.filter fun g =>
        !(decide (g.index = 0) || osd_options.get_mask g.grid_position)).map
        (fun g => (g.index, g.grid_position))) := by
  have hinv := cachedGlyphStep_fold_inv font osd_options
    (get_character_size image.width image.height)
    (roundToU32 ((Dec10.ofNat (get_character_size image.width image.height).width).mul
      osd_options.scale.div100))
    (roundToU32 ((Dec10.ofNat (get_character_size image.width image.height).height).mul
      osd_options.scale.div100)) offset osd_frame.glyphs
    { image := image, cache := glyph_cache, fetched := [], composed := [] }
    List.nodup_nil (by intro i hi; cases hi)
  obtain ⟨c1, c2, c3, c4, c5, c6⟩ := hinv
  refine ⟨c1, fun i hi => ⟨?_, c2 i hi⟩, c3, fun i hi hf => c5 i hi (by intro hx; cases hx) hf,
    ?_⟩
  · rcases c4 i hi with hin | hnone
    · cases hin
    · exact hnone
  · simp only [overlay_osd_cached]
    rw [c6]
    simp

/-- Across one render session the cache grows monotonically and every fetch
is a first fetch: the concatenated fetch log is duplicate-free, each fetched
index was absent from the session's starting cache, and entries present at
the start survive to the end. -/
theorem runCachedSession_inv (font : FontFile) (osd_options : OsdOptions)
    (offset : Int × Int) :
    ∀ (frames : List (Frame × RgbaImage)) (cache : List (Nat × RgbaImage)),
      (runCachedSession font osd_options offset frames cache).2.Nodup ∧
      (∀ i ∈ (runCachedSession font osd_options offset frames cache).2,
        cacheLookup cache i = none) ∧
      (∀ i, cacheLookup cache i ≠ none →
        cacheLookup (runCachedSession font osd_options offset frames cache).1 i =
          cacheLookup cache i) := by
  intro frames
  induction frames with
  | nil =>
    intro cache
    refine ⟨List.nodup_nil, ?_, ?_⟩
    · intro i hi
      exact absurd hi (List.not_mem_nil i)
    · intro i _
      rfl
  | cons p rest ih =>
    intro cache
    obtain ⟨fr, img⟩ := p
    obtain ⟨f1, f2, f3, f4, _⟩ :=
      overlay_osd_cached_facts img fr font osd_options offset cache
    obtain ⟨i1, i2, i3⟩ :=
      ih (overlay_osd_cached img fr font osd_options offset cache).cache
    simp only [runCachedSession]
    refine ⟨?_, ?_, ?_⟩
    · rw [List.nodup_append]
      refine ⟨f1, i1, ?_⟩
      intro a ha hb
      have hsome := (f2 a ha).2
      have hnone := i2 a hb
      exact hsome hnone
    · intro i hi
      rcases List.mem_append.mp hi with hi2 | hi2
      · exact (f2 i hi2).1
      · by_cases hc : cacheLookup cache i = none
        · exact hc
        · exact (f3 i hc).symm.trans (i2 i hi2)
    · intro i hne
      have h1 := f3 i hne
      have h2 : cacheLookup
          (overlay_osd_cached img fr font osd_options offset cache).cache i ≠ none := by
        rw [h1]; exact hne
      rw [i3 i h2, h1]

/-- C7: within one render session (the lifetime of one glyph cache),
repeated cached-overlay calls fetch and resize each glyph index at most once
— the session's concatenated fetch log has no duplicates, and a fetch only
ever happens on a cache miss — and a glyph index missing from the font is
cached as a fully transparent image of the scaled target size while its
composition at the grid cell still occurs (the composition log lists every
unmasked non-zero glyph, font or no font). -/
theorem glyph_cache_fetch_once (font : FontFile) (osd_options : OsdOptions)
    (offset : Int × Int) :
    (∀ frames : List (Frame × RgbaImage),
      (runCachedSession font osd_options offset frames []).2.Nodup) ∧
    (∀ (image : RgbaImage) (osd_frame : Frame) (glyph_cache : List (Nat × RgbaImage))
      (i : Nat),
      i ∈ (overlay_osd_cached image osd_frame font osd_options offset glyph_cache).fetched →
      cacheLookup glyph_cache i = none) ∧
    (∀ (image : RgbaImage) (osd_frame : Frame) (glyph_cache : List (Nat × RgbaImage)),
      (overlay_osd_cached image osd_frame font osd_options offset glyph_cache).composed.map
          (fun e => (e.index, e.pos)) =
        (osd_frame.glyphs.filter fun g =>
          !(decide (g.index = 0) || osd_options.get_mask g.grid_position)).map
          (fun g => (g.index, g.grid_position))) ∧
    (∀ (image : RgbaImage) (osd_frame : Frame) (glyph_cache : List (Nat × RgbaImage))
      (i : Nat),
      i ∈ (overlay_osd_cached image osd_frame font osd_options offset glyph_cache).fetched →
      font.getCharacter i = none →
      cacheLookup
        (overlay_osd_cached image osd_frame font osd_options offset glyph_cache).cache i =
        some (RgbaImage.new
          (roundToU32 ((Dec10.ofNat (get_character_size image.width image.height).width).mul
            osd_options.scale.div100))
          (roundToU32 ((Dec10.ofNat (get_character_size image.width image.height).height).mul
            osd_options.scale.div100)))) := by
  refine ⟨fun frames => (runCachedSession_inv font osd_options offset frames []).1,
    fun image osd_frame glyph_cache i hi =>
      ((overlay_osd_cached_facts image osd_frame font osd_options offset glyph_cache).2.1
        i hi).1,
    fun image osd_frame glyph_cache =>
      (overlay_osd_cached_facts image osd_frame font osd_options offset glyph_cache).2.2.2.2,
    fun image osd_frame glyph_cache i hi hf =>
      (overlay_osd_cached_facts image osd_frame font osd_options offset
        glyph_cache).2.2.2.1 i hi hf⟩

/-- Witness for C7 at a concrete session: one missing glyph, fetched once
over two frames, cached as the transparent 36×54 placeholder. -/
theorem glyph_cache_fetch_once_witness :
    cacheLookup ([] : List (Nat × RgbaImage)) 7 = none ∧
    cacheLookup (overlay_osd_cached (RgbaImage.new 1920 1080) ⟨0, [⟨7, ⟨0, 0⟩⟩]⟩
        ⟨fun _ => none⟩ ⟨⟨100, 0⟩, ⟨0, 0⟩, []⟩ (0, 0) []).cache 7 =
      some (RgbaImage.new
        (roundToU32 ((Dec10.ofNat (get_character_size (RgbaImage.new 1920 1080).width
          (RgbaImage.new 1920 1080).height).width).mul
            (⟨⟨100, 0⟩, ⟨0, 0⟩, []⟩ : OsdOptions).scale.div100))
        (roundToU32 ((Dec10.ofNat (get_character_size (RgbaImage.new 1920 1080).width
          (RgbaImage.new 1920 1080).height).height).mul
            (⟨⟨100, 0⟩, ⟨0, 0⟩, []⟩ : OsdOptions).scale.div100))) :=
  ⟨(glyph_cache_fetch_once ⟨fun _ => none⟩ ⟨⟨100, 0⟩, ⟨0, 0⟩, []⟩ (0, 0)).2.1
      (RgbaImage.new 1920 1080) ⟨0, [⟨7, ⟨0, 0⟩⟩]⟩ [] 7 (by decide),
   (glyph_cache_fetch_once ⟨fun _ => none⟩ ⟨⟨100, 0⟩, ⟨0, 0⟩, []⟩ (0, 0)).2.2.2
      (RgbaImage.new 1920 1080) ⟨0, [⟨7, ⟨0, 0⟩⟩]⟩ [] 7 (by decide) rfl⟩

/-- A skipped glyph (index 0 or masked) leaves the uncached accumulator
untouched. -/
theorem uncachedGlyphStep_skip (font : FontFile) (osd_options : OsdOptions)
    (base : CharacterSize) (sw sh : Nat) (offset : Int × Int)
    (acc : RgbaImage × List CompEntry) (g : Glyph)
    (h : (decide (g.index = 0) || osd_options.get_mask g.grid_position) = true) :
    uncachedGlyphStep font osd_options base sw sh offset acc g = acc := by
  unfold uncachedGlyphStep
  rw [if_pos h]

/-- A glyph the font lacks leaves the uncached accumulator untouched. -/
theorem uncachedGlyphStep_none (font : FontFile) (osd_options : OsdOptions)
    (base : CharacterSize) (sw sh : Nat) (offset : Int × Int)
    (acc : RgbaImage × List CompEntry) (g : Glyph)
    (h : ¬((decide (g.index = 0) || osd_options.get_mask g.grid_position) = true))
    (hf : get_scaled_glyph font g.index base sw sh = none) :
    uncachedGlyphStep font osd_options base sw sh offset acc g = acc := by
  unfold uncachedGlyphStep
  rw [if_neg h, hf]

/-- An unmasked non-zero glyph the font has is blended and logged. -/
theorem uncachedGlyphStep_some (font : FontFile) (osd_options : OsdOptions)
    (base : CharacterSize) (sw sh : Nat) (offset : Int × Int)
    (acc : RgbaImage × List CompEntry) (g : Glyph) (im : RgbaImage)
    (h : ¬((decide (g.index = 0) || osd_options.get_mask g.grid_position) = true))
    (hf : get_scaled_glyph font g.index base sw sh = some im) :
    uncachedGlyphStep font osd_options base sw sh offset acc g =
      (overlayImg acc.1 im (glyphPx osd_options offset sw g)
        (glyphPy osd_options offset sh g),
       acc.2 ++ [⟨g.index, g.grid_position, glyphPx osd_options offset sw g,
         glyphPy osd_options offset sh g, im.width, im.height⟩]) := by
  unfold uncachedGlyphStep
  rw [if_neg h, hf]

/-- The composition log of the uncached fold is the per-glyph entries of
`uncachedEntry`, appended to the accumulator's log. -/
theorem uncached_fold_composed (font : FontFile) (osd_options : OsdOptions)
    (base : CharacterSize) (sw sh : Nat) (offset : Int × Int) :
    ∀ (gs : List Glyph) (acc : RgbaImage × List CompEntry),
      (gs.foldl (uncachedGlyphStep font osd_options base sw sh offset) acc).2 =
        acc.2 ++ gs.filterMap (uncachedEntry font osd_options base sw sh offset) := by
  intro gs
  induction gs with
  | nil => intro acc; simp
  | cons g t ih =>
    intro acc
    rw [List.foldl_cons]
    by_cases h : (decide (g.index = 0) || osd_options.get_mask g.grid_position) = true
    · have he : uncachedEntry font osd_options base sw sh offset g = none := by
        unfold uncachedEntry
        rw [if_pos h]
      rw [uncachedGlyphStep_skip font osd_options base sw sh offset acc g h]
      simp only [List.filterMap_cons, he]
      exact ih acc
    · cases hf : get_scaled_glyph font g.index base sw sh with
      | none =>
        have he : uncachedEntry font osd_options base sw sh offset g = none := by
          unfold uncachedEntry
          rw [if_neg h, hf]
          rfl
        rw [uncachedGlyphStep_none font osd_options base sw sh offset acc g h hf]
        simp only [List.filterMap_cons, he]
        exact ih acc
      | some im =>
        have he : uncachedEntry font osd_options base sw sh offset g =
            some ⟨g.index, g.grid_position, glyphPx osd_options offset sw g,
              glyphPy osd_options offset sh g, im.width, im.height⟩ := by
          unfold uncachedEntry
          rw [if_neg h, hf]
          rfl
        rw [uncachedGlyphStep_some font osd_options base sw sh offset acc g im h hf]
        simp only [List.filterMap_cons, he]
        rw [ih]
        simp

/-- Pixels outside every logged composition region are untouched by the
uncached fold. -/
theorem uncached_fold_pix (font : FontFile) (osd_options : OsdOptions)
    (base : CharacterSize) (sw sh : Nat) (offset : Int × Int) :
    ∀ (gs : List Glyph) (acc : RgbaImage × List CompEntry) (x y : Nat),
      (∀ e ∈ (gs.foldl (uncachedGlyphStep font osd_options base sw sh offset) acc).2,
        ¬ e.inRegion x y) →
      (gs.foldl (uncachedGlyphStep font osd_options base sw sh offset) acc).1.pix x y =
        acc.1.pix x y := by
  intro gs
  induction gs with
  | nil => intro acc x y _; rfl
  | cons g t ih =>
    intro acc x y hout
    rw [List.foldl_cons] at hout ⊢
    by_cases h : (decide (g.index = 0) || osd_options.get_mask g.grid_position) = true
    · rw [uncachedGlyphStep_skip font osd_options base sw sh offset acc g h] at hout ⊢
      exact ih acc x y hout
    · cases hf : get_scaled_glyph font g.index base sw sh with
      | none =>
        rw [uncachedGlyphStep_none font osd_options base sw sh offset acc g h hf] at hout ⊢
        exact ih acc x y hout
      | some im =>
        rw [uncachedGlyphStep_some font osd_options base sw sh offset acc g im h hf]
          at hout ⊢
        set acc2 : RgbaImage × List CompEntry :=
          (overlayImg acc.1 im (glyphPx osd_options offset sw g)
            (glyphPy osd_options offset sh g),
           acc.2 ++ [⟨g.index, g.grid_position, glyphPx osd_options offset sw g,
             glyphPy osd_options offset sh g, im.width, im.height⟩]) with hacc2
        have hmem : (⟨g.index, g.grid_position, glyphPx osd_options offset sw g,
            glyphPy osd_options offset sh g, im.width, im.height⟩ : CompEntry) ∈
            (t.foldl (uncachedGlyphStep font osd_options base sw sh offset) acc2).2 := by
          rw [uncached_fold_composed]
          rw [hacc2]
          simp
        have hentry := hout _ hmem
        rw [ih acc2 x y hout]
        rw [hacc2]
        apply overlayImg_pix_outside
        intro hreg
        exact hentry hreg

/-- A logged uncached composition entry records an unmasked non-zero glyph's
index and grid cell. -/
theorem uncachedEntry_provenance (font : FontFile) (osd_options : OsdOptions)
    (base : CharacterSize) (sw sh : Nat) (offset : Int × Int) (g : Glyph) (e : CompEntry)
    (h : uncachedEntry font osd_options base sw sh offset g = some e) :
    g.index ≠ 0 ∧ osd_options.get_mask g.grid_position = false ∧
      e.index = g.index ∧ e.pos = g.grid_position := by
  unfold uncachedEntry at h
  by_cases hc : (decide (g.index = 0) || osd_options.get_mask g.grid_position) = true
  · rw [if_pos hc] at h
    cases h
  · rw [if_neg hc] at h
    rcases Option.map_eq_some'.mp h with ⟨im, _, hentry⟩
    subst hentry
    simp only [Bool.or_eq_true, decide_eq_true_eq, not_or, Bool.not_eq_true] at hc
    exact ⟨hc.1, hc.2, rfl, rfl⟩

/-- The composition log of `overlay_osd` is exactly the per-glyph entries. -/
theorem overlay_osd_composed (image : RgbaImage) (osd_frame : Frame) (font : FontFile)
    (osd_options : OsdOptions) (offset : Int × Int) :
    (overlay_osd image osd_frame font osd_options offset).2 =
      osd_frame.glyphs.filterMap (uncachedEntry font osd_options
        (get_character_size image.width image.height)
        (roundToU32 ((Dec10.ofNat (get_character_size image.width image.height).width).mul
          osd_options.scale.div100))
        (roundToU32 ((Dec10.ofNat (get_character_size image.width image.height).height).mul
          osd_options.scale.div100)) offset) := by
  simp only [overlay_osd]
  rw [uncached_fold_composed]
  simp

/-- C8: a composition call writes only inside the rectangle at the glyph's
grid cell (pixel origin `grid * scaled_size + user position + offset`, extent
the scaled glyph size): pixels outside every logged region are unchanged, in
both the uncached and the cached path; and every logged composition stems
from a glyph whose index is non-zero and whose cell is not masked — index-0
and masked glyphs write no pixels at all. -/
theorem masked_zero_no_pixel_write (image : RgbaImage) (osd_frame : Frame) (font : FontFile)
    (osd_options : OsdOptions) (offset : Int × Int) :
    (∀ x y : Nat,
      (∀ e ∈ (overlay_osd image osd_frame font osd_options offset).2, ¬ e.inRegion x y) →
      (overlay_osd image osd_frame font osd_options offset).1.pix x y = image.pix x y) ∧
    (∀ e ∈ (overlay_osd image osd_frame font osd_options offset).2,
      ∃ g ∈ osd_frame.glyphs, g.index ≠ 0 ∧
        osd_options.get_mask g.grid_position = false ∧
        e.index = g.index ∧ e.pos = g.grid_position) ∧
    (∀ (glyph_cache : List (Nat × RgbaImage)) (x y : Nat),
      (∀ e ∈ (overlay_osd_cached image osd_frame font osd_options offset glyph_cache).composed,
        ¬ e.inRegion x y) →
      (overlay_osd_cached image osd_frame font osd_options offset glyph_cache).image.pix x y =
        image.pix x y) ∧
    (∀ (glyph_cache : List (Nat × RgbaImage)) (e : CompEntry),
      e ∈ (overlay_osd_cached image osd_frame font osd_options offset glyph_cache).composed →
      ∃ g ∈ osd_frame.glyphs, g.index ≠ 0 ∧
        osd_options.get_mask g.grid_position = false ∧
        e.index = g.index ∧ e.pos = g.grid_position) := by
  refine ⟨?_, ?_, ?_, ?_⟩
  · intro x y hout
    simp only [overlay_osd] at hout ⊢
    exact uncached_fold_pix font osd_options _ _ _ offset osd_frame.glyphs (image, []) x y hout
  · intro e he
    rw [overlay_osd_composed] at he
    rcases List.mem_filterMap.mp he with ⟨g, hg, hsome⟩
    rcases uncachedEntry_provenance _ _ _ _ _ _ g e hsome with ⟨h1, h2, h3, h4⟩
    exact ⟨g, hg, h1, h2, h3, h4⟩
  · intro glyph_cache x y hout
    simp only [overlay_osd_cached] at hout ⊢
    exact cached_fold_pix font osd_options _ _ _ offset osd_frame.glyphs
      { image := image, cache := glyph_cache, fetched := [], composed := [] } x y hout
  · intro glyph_cache e he
    have hmap := (overlay_osd_cached_facts image osd_frame font osd_options offset
      glyph_cache).2.2.2.2
    have hm : (e.index, e.pos) ∈
        (overlay_osd_cached image osd_frame font osd_options offset glyph_cache).composed.map
          (fun e => (e.index, e.pos)) := List.mem_map_of_mem _ he
    rw [hmap] at hm
    rcases List.mem_map.mp hm with ⟨g, hgf, heq⟩
    rcases List.mem_filter.mp hgf with ⟨hg1, hg2⟩
    simp only [Bool.not_eq_true', Bool.or_eq_false_iff, decide_eq_false_iff_not] at hg2
    exact ⟨g, hg1, hg2.1, hg2.2, (congrArg Prod.fst heq).symm, (congrArg Prod.snd heq).symm⟩

/-- Witness for C8 at a concrete render: three glyphs (one real, one masked,
one index-0), only the real one is composited, and a pixel outside its
rectangle keeps the background value in both paths. -/
theorem masked_zero_no_pixel_write_witness :
    (overlay_osd (RgbaImage.new 1920 1080) ⟨0, [⟨7, ⟨0, 0⟩⟩, ⟨9, ⟨2, 3⟩⟩, ⟨0, ⟨1, 1⟩⟩]⟩
        ⟨fun _ => some (RgbaImage.new 36 54)⟩ ⟨⟨100, 0⟩, ⟨0, 0⟩, [⟨2, 3⟩]⟩ (0, 0)).1.pix
        100 100 =
      (RgbaImage.new 1920 1080).pix 100 100 ∧
    (∃ g ∈ [(⟨7, ⟨0, 0⟩⟩ : Glyph), ⟨9, ⟨2, 3⟩⟩, ⟨0, ⟨1, 1⟩⟩], g.index ≠ 0 ∧
      (⟨⟨100, 0⟩, ⟨0, 0⟩, [⟨2, 3⟩]⟩ : OsdOptions).get_mask g.grid_position = false ∧
      (⟨7, ⟨0, 0⟩, 0, 0, 36, 54⟩ : CompEntry).index = g.index ∧
      (⟨7, ⟨0, 0⟩, 0, 0, 36, 54⟩ : CompEntry).pos = g.grid_position) ∧
    (overlay_osd_cached (RgbaImage.new 1920 1080) ⟨0, [⟨7, ⟨0, 0⟩⟩, ⟨9, ⟨2, 3⟩⟩, ⟨0, ⟨1, 1⟩⟩]⟩
        ⟨fun _ => some (RgbaImage.new 36 54)⟩ ⟨⟨100, 0⟩, ⟨0, 0⟩, [⟨2, 3⟩]⟩ (0, 0) []).image.pix
        100 100 =
      (RgbaImage.new 1920 1080).pix 100 100 :=
  ⟨(masked_zero_no_pixel_write (RgbaImage.new 1920 1080)
      ⟨0, [⟨7, ⟨0, 0⟩⟩, ⟨9, ⟨2, 3⟩⟩, ⟨0, ⟨1, 1⟩⟩]⟩ ⟨fun _ => some (RgbaImage.new 36 54)⟩
      ⟨⟨100, 0⟩, ⟨0, 0⟩, [⟨2, 3⟩]⟩ (0, 0)).1 100 100 (by decide),
   (masked_zero_no_pixel_write (RgbaImage.new 1920 1080)
      ⟨0, [⟨7, ⟨0, 0⟩⟩, ⟨9, ⟨2, 3⟩⟩, ⟨0, ⟨1, 1⟩⟩]⟩ ⟨fun _ => some (RgbaImage.new 36 54)⟩
      ⟨⟨100, 0⟩, ⟨0, 0⟩, [⟨2, 3⟩]⟩ (0, 0)).2.1 ⟨7, ⟨0, 0⟩, 0, 0, 36, 54⟩ (by decide),
   (masked_zero_no_pixel_write (RgbaImage.new 1920 1080)
      ⟨0, [⟨7, ⟨0, 0⟩⟩, ⟨9, ⟨2, 3⟩⟩, ⟨0, ⟨1, 1⟩⟩]⟩ ⟨fun _ => some (RgbaImage.new 36 54)⟩
      ⟨⟨100, 0⟩, ⟨0, 0⟩, [⟨2, 3⟩]⟩ (0, 0)).2.2.1 [] 100 100 (by decide)⟩

end Walksnail
